import Mathlib

/-!
# Verification of the `datetime-parse` library (`src/lib.rs`)

A shallow embedding of the library's parsing pipeline in Lean 4.

The library's own code (`parse_from`, `standardize_date`, the twelve
interpreter strategies, `is_tz_alpha`, `to_rfc2822`) is translated
function-for-function from `src/lib.rs`.  The external collaborators the
library delegates to are modelled from their documented behaviour:

* Rust `str::parse::<i64>` / `str::parse::<f64>` and the `as i64`
  saturating cast (IEEE-754 double rounding is modelled exactly on rationals);
* the chrono crate's strftime-style parsers (`NaiveDate/NaiveTime/
  NaiveDateTime/DateTime::parse_from_str`), its RFC 3339 / RFC 2822
  parsers, `NaiveDateTime::from_timestamp_opt`, `to_rfc3339` formatting,
  and `Local::from_local_datetime` (the platform timezone lookup, which
  is an explicit environment parameter `Env` here).

Machine integers are modelled as `Int`/`Nat` (Rust `i64` overflow is made
explicit where it matters).  A Rust panic is modelled as a distinguished
outcome (`SOut.panic` / `Outcome.panic`).  Unicode strings are `List Char`
(Lean `Char` = Unicode scalar value, with `Char.utf8Size` giving the
UTF-8 byte count, so Rust's byte-index slicing is modelled faithfully).

Two deliberate simplifications of the chrono model, neither of which any
theorem below is sensitive to: leap seconds (`:60`) are treated as
invalid input, and alphabetic checks use ASCII letters.
-/

set_option maxRecDepth 100000

namespace DTP

/-! ## Proleptic Gregorian calendar arithmetic

`daysFromCivil` maps a calendar date to days since 1970-01-01 and
`civilFromDays` is its inverse; any correct Gregorian conversion agrees
with chrono's, so these are implemented in a proof-friendly style. -/

def isLeap (y : Int) : Bool := (y % 4 == 0 && y % 100 != 0) || y % 400 == 0

def monthLen (leap : Bool) (m : Nat) : Nat :=
  if m = 1 then 31 else if m = 2 then (if leap then 29 else 28) else if m = 3 then 31
  else if m = 4 then 30 else if m = 5 then 31 else if m = 6 then 30 else if m = 7 then 31
  else if m = 8 then 31 else if m = 9 then 30 else if m = 10 then 31 else if m = 11 then 30
  else if m = 12 then 31 else 0

/-- Days in the months strictly before month `m` (1-based). -/
def cumBefore (leap : Bool) (m : Nat) : Nat :=
  (if m = 1 then 0 else if m = 2 then 31 else if m = 3 then 59 else if m = 4 then 90
   else if m = 5 then 120 else if m = 6 then 151 else if m = 7 then 181 else if m = 8 then 212
   else if m = 9 then 243 else if m = 10 then 273 else if m = 11 then 304 else 334)
  + (if leap ∧ 3 ≤ m then 1 else 0)

/-- Number of leap years in `(0, y]` (signed count for negative `y`). -/
def leapsTo (y : Int) : Int := y / 4 - y / 100 + y / 400

/-- Day number (days since 1970-01-01) of January 1 of year `y`. -/
def yearStart (y : Int) : Int := 365 * (y - 1970) + (leapsTo (y - 1) - 477)

def daysFromCivil (y : Int) (m d : Nat) : Int :=
  yearStart y + (cumBefore (isLeap y) m : Int) + (d : Int) - 1

def mdOfDoyF : Nat → Bool → Nat → Nat → Nat × Nat
  | 0, _, m, doy => (m, doy + 1)
  | fuel + 1, leap, m, doy =>
    if doy < monthLen leap m then (m, doy + 1)
    else mdOfDoyF fuel leap (m + 1) (doy - monthLen leap m)

/-- Month and day (1-based) from a 0-based day-of-year. -/
def mdOfDoy (leap : Bool) (doy : Nat) : Nat × Nat := mdOfDoyF 11 leap 1 doy

def yearOfStep (z y : Int) : Int :=
  if z < yearStart y then y - 1 else if yearStart (y + 1) ≤ z then y + 1 else y

/-- The year containing day number `z`. -/
def yearOf (z : Int) : Int :=
  yearOfStep z (yearOfStep z (1970 + 400 * z / 146097))

def civilFromDays (z : Int) : Int × Nat × Nat :=
  (yearOf z, (mdOfDoy (isLeap (yearOf z)) (z - yearStart (yearOf z)).toNat).1,
   (mdOfDoy (isLeap (yearOf z)) (z - yearStart (yearOf z)).toNat).2)

/-- Day of week of day number `z`, 0 = Monday (1970-01-01 is a Thursday). -/
def dowOfDays (z : Int) : Nat := ((z + 3) % 7).toNat

/-- chrono `NaiveDate` year range. -/
def minDays : Int := daysFromCivil (-262144) 1 1
def maxDays : Int := daysFromCivil 262143 12 31

theorem isLeap_iff (y : Int) : isLeap y = true ↔ ((y % 4 = 0 ∧ ¬ y % 100 = 0) ∨ y % 400 = 0) := by
  simp [isLeap, Bool.or_eq_true, Bool.and_eq_true, beq_iff_eq, bne_iff_ne]

theorem yearStart_succ (y : Int) :
    yearStart (y + 1) = yearStart y + (if isLeap y then 366 else 365) := by
  by_cases h : isLeap y = true
  · rw [if_pos h]
    rw [isLeap_iff] at h
    unfold yearStart leapsTo
    omega
  · rw [if_neg h]
    rw [isLeap_iff] at h
    unfold yearStart leapsTo
    omega

theorem yearStart_mono {a b : Int} (h : a ≤ b) : yearStart a ≤ yearStart b := by
  unfold yearStart leapsTo
  omega

theorem yearOf_correct (z : Int) :
    yearStart (yearOf z) ≤ z ∧ z < yearStart (yearOf z + 1) := by
  unfold yearOf yearOfStep yearStart leapsTo
  split_ifs <;> omega

set_option maxRecDepth 10000 in
theorem mdOfDoy_correct : ∀ (leap : Bool), ∀ doy < 366, doy < (if leap then 366 else 365) →
    (1 ≤ (mdOfDoy leap doy).1 ∧ (mdOfDoy leap doy).1 ≤ 12 ∧
     1 ≤ (mdOfDoy leap doy).2 ∧ (mdOfDoy leap doy).2 ≤ monthLen leap (mdOfDoy leap doy).1 ∧
     cumBefore leap (mdOfDoy leap doy).1 + ((mdOfDoy leap doy).2 - 1) = doy) := by
  decide

theorem civilFromDays_inv (z : Int) :
    daysFromCivil (civilFromDays z).1 (civilFromDays z).2.1 (civilFromDays z).2.2 = z := by
  obtain ⟨h1, h2⟩ := yearOf_correct z
  have hs := yearStart_succ (yearOf z)
  have hdoy : (z - yearStart (yearOf z)).toNat < (if isLeap (yearOf z) then 366 else 365) := by
    by_cases h : isLeap (yearOf z) = true <;> simp [h] at hs ⊢ <;> omega
  have hd366 : (z - yearStart (yearOf z)).toNat < 366 := by
    by_cases h : isLeap (yearOf z) = true <;> simp [h] at hdoy <;> omega
  have hmd := mdOfDoy_correct (isLeap (yearOf z)) ((z - yearStart (yearOf z)).toNat) hd366 hdoy
  simp only [civilFromDays, daysFromCivil]
  omega

theorem civilFromDays_valid (z : Int) (hz1 : minDays ≤ z) (hz2 : z ≤ maxDays) :
    -262144 ≤ (civilFromDays z).1 ∧ (civilFromDays z).1 ≤ 262143 ∧
    1 ≤ (civilFromDays z).2.1 ∧ (civilFromDays z).2.1 ≤ 12 ∧
    1 ≤ (civilFromDays z).2.2 ∧
    (civilFromDays z).2.2 ≤ monthLen (isLeap (civilFromDays z).1) (civilFromDays z).2.1 := by
  obtain ⟨h1, h2⟩ := yearOf_correct z
  have hs := yearStart_succ (yearOf z)
  have hdoy : (z - yearStart (yearOf z)).toNat < (if isLeap (yearOf z) then 366 else 365) := by
    by_cases h : isLeap (yearOf z) = true <;> simp [h] at hs ⊢ <;> omega
  have hd366 : (z - yearStart (yearOf z)).toNat < 366 := by
    by_cases h : isLeap (yearOf z) = true <;> simp [h] at hdoy <;> omega
  have hmd := mdOfDoy_correct (isLeap (yearOf z)) ((z - yearStart (yearOf z)).toNat) hd366 hdoy
  have hylo : -262144 ≤ yearOf z := by
    by_contra hy
    have : yearOf z + 1 ≤ -262144 := by omega
    have := yearStart_mono this
    have hmin : minDays = yearStart (-262144) := by
      unfold minDays daysFromCivil
      simp [cumBefore]
    omega
  have hyhi : yearOf z ≤ 262143 := by
    by_contra hy
    have h262144 : (262144 : Int) ≤ yearOf z := by omega
    have := yearStart_mono h262144
    have hnl : isLeap 262143 = false := by decide
    have hmax : maxDays = yearStart 262143 + 364 := by
      unfold maxDays daysFromCivil
      rw [hnl]
      simp [cumBefore]
      omega
    have hs2 := yearStart_succ 262143
    rw [hnl] at hs2
    simp at hs2
    omega
  simp only [civilFromDays]
  exact ⟨hylo, hyhi, hmd.1, hmd.2.1, hmd.2.2.1, hmd.2.2.2.1⟩

/-! ## Digit strings -/

def digitVal (c : Char) : Nat := c.toNat - 48

def digitsToNat (l : List Char) : Nat := l.foldl (fun a c => a * 10 + digitVal c) 0

def natDigitsF : Nat → Nat → List Char
  | 0, _ => []
  | fuel + 1, n => if n = 0 then [] else natDigitsF fuel (n / 10) ++ [Char.ofNat (48 + n % 10)]

def natDigits (n : Nat) : List Char := if n = 0 then ['0'] else natDigitsF n n

def padNat (w n : Nat) : List Char :=
  List.replicate (w - (natDigits n).length) '0' ++ natDigits n

/-! ## Rust `str::parse::<i64>` -/

def i64Max : Int := 9223372036854775807
def i64Min : Int := -9223372036854775808

def parseUDecCore (s : List Char) : Option Nat :=
  if s ≠ [] ∧ s.all Char.isDigit then some (digitsToNat s) else none

def parseI64 (s : List Char) : Option Int :=
  match s with
  | [] => none
  | c :: r =>
    if c = '+' then
      (parseUDecCore r).bind (fun n => if (n : Int) ≤ i64Max then some (n : Int) else none)
    else if c = '-' then
      (parseUDecCore r).bind
        (fun n => if (n : Int) ≤ 9223372036854775808 then some (-(n : Int)) else none)
    else (parseUDecCore (c :: r)).bind (fun n => if (n : Int) ≤ i64Max then some (n : Int) else none)

/-! ## Rust `str::parse::<f64>` and the `as i64` saturating cast

A parsed double is the correctly rounded (round half to even, 53-bit
significand, 11-bit exponent) value of the decimal literal.  The exact
value is kept as an explicit numerator/denominator pair `Q2` (denominator
always positive by construction) so that everything reduces in the
kernel. -/

def pow2N : Nat → Nat
  | 0 => 1
  | k + 1 => 2 * pow2N k

def pow10N : Nat → Nat
  | 0 => 1
  | k + 1 => 10 * pow10N k

structure Q2 where
  n : Int
  d : Int
deriving DecidableEq, Repr

def mkQ2 (n d : Int) : Q2 := if d < 0 then ⟨-n, -d⟩ else ⟨n, d⟩

def Q2.ofInt (n : Int) : Q2 := ⟨n, 1⟩

def Q2.add (a b : Q2) : Q2 := ⟨a.n * b.d + b.n * a.d, a.d * b.d⟩

def Q2.mul (a b : Q2) : Q2 := ⟨a.n * b.n, a.d * b.d⟩

def Q2.div (a b : Q2) : Q2 := mkQ2 (a.n * b.d) (a.d * b.n)

def Q2.neg (a : Q2) : Q2 := ⟨-a.n, a.d⟩

def Q2.absQ (a : Q2) : Q2 := ⟨a.n.natAbs, a.d⟩

def Q2.isZero (a : Q2) : Bool := a.n = 0

def Q2.isNeg (a : Q2) : Bool := a.n < 0

/-- `a ≤ b` for positive denominators. -/
def Q2.leQ (a b : Q2) : Bool := a.n * b.d ≤ b.n * a.d

def Q2.ltQ (a b : Q2) : Bool := a.n * b.d < b.n * a.d

/-- Floor (denominator positive). -/
def Q2.floorQ (a : Q2) : Int := a.n / a.d

/-- Ceiling (denominator positive). -/
def Q2.ceilQ (a : Q2) : Int := -((-a.n) / a.d)

def qpow2 (e : Int) : Q2 := if e < 0 then ⟨1, (pow2N (-e).toNat : Int)⟩ else ⟨(pow2N e.toNat : Int), 1⟩

def qpow10 (e : Int) : Q2 := if e < 0 then ⟨1, (pow10N (-e).toNat : Int)⟩ else ⟨(pow10N e.toNat : Int), 1⟩

inductive FVal where
  | nan
  | inf (neg : Bool)
  | fin (q : Q2)
deriving DecidableEq, Repr

def natLog2F : Nat → Nat → Nat
  | 0, _ => 0
  | fuel + 1, n => if 2 ≤ n then natLog2F fuel (n / 2) + 1 else 0

def natLog2 (n : Nat) : Nat := natLog2F n n

/-- `⌊log₂ q⌋` for `q > 0`. -/
def qlog2 (q : Q2) : Int :=
  let e0 : Int := (natLog2 q.n.toNat : Int) - (natLog2 q.d.toNat : Int)
  if (qpow2 (e0 + 1)).leQ q then e0 + 1
  else if (qpow2 e0).leQ q then e0
  else if (qpow2 (e0 - 1)).leQ q then e0 - 1
  else e0 - 2

/-- Round a nonnegative rational to an integer, half to even. -/
def rheQ (x : Q2) : Int :=
  if 2 * (x.n % x.d) < x.d then x.n / x.d
  else if x.d < 2 * (x.n % x.d) then x.n / x.d + 1
  else if (x.n / x.d) % 2 = 0 then x.n / x.d else x.n / x.d + 1

def maxF64 : Q2 := ⟨((pow2N 53 : Int) - 1) * (pow2N 971 : Int), 1⟩

def roundF64 (q : Q2) : FVal :=
  if q.isZero then .fin (Q2.ofInt 0)
  else
    let aq := q.absQ
    let scale : Int := max (qlog2 aq - 52) (-1074)
    let v : Q2 := (Q2.ofInt (rheQ (aq.div (qpow2 scale)))).mul (qpow2 scale)
    if maxF64.ltQ v then .inf q.isNeg else .fin (if q.isNeg then v.neg else v)

def toLowerCh (c : Char) : Char := if 'A' ≤ c ∧ c ≤ 'Z' then Char.ofNat (c.toNat + 32) else c

def parseExpPart (q : Q2) (s : List Char) : Option Q2 :=
  match s with
  | [] => some q
  | c :: r =>
    if c = 'e' ∨ c = 'E' then
      match r with
      | '+' :: r2 => (parseUDecCore r2).map (fun n => q.mul (qpow10 (n : Int)))
      | '-' :: r2 => (parseUDecCore r2).map (fun n => q.mul (qpow10 (-(n : Int))))
      | _ => (parseUDecCore r).map (fun n => q.mul (qpow10 (n : Int)))
    else none

def fracVal (fp : List Char) : Q2 := ⟨(digitsToNat fp : Int), (pow10N fp.length : Int)⟩

def parseDecMant (s : List Char) : Option Q2 :=
  match s.dropWhile Char.isDigit with
  | '.' :: r =>
    if s.takeWhile Char.isDigit = [] ∧ r.takeWhile Char.isDigit = [] then none
    else
      parseExpPart
        ((Q2.ofInt (digitsToNat (s.takeWhile Char.isDigit))).add
          (fracVal (r.takeWhile Char.isDigit)))
        (r.dropWhile Char.isDigit)
  | r1 =>
    if s.takeWhile Char.isDigit = [] then none
    else parseExpPart (Q2.ofInt (digitsToNat (s.takeWhile Char.isDigit))) r1

def parseF64Body (neg : Bool) (s : List Char) : Option FVal :=
  if s.map toLowerCh = ['i','n','f'] ∨ s.map toLowerCh = ['i','n','f','i','n','i','t','y'] then
    some (.inf neg)
  else if s.map toLowerCh = ['n','a','n'] then some .nan
  else (parseDecMant s).map (fun q => roundF64 (if neg then q.neg else q))

def parseF64 (s : List Char) : Option FVal :=
  match s with
  | '+' :: r => parseF64Body false r
  | '-' :: r => parseF64Body true r
  | _ => parseF64Body false s

/-- Rust `as i64` on an `f64`: NaN ↦ 0, saturating at the `i64` bounds,
truncation toward zero. -/
def f64AsI64 : FVal → Int
  | .nan => 0
  | .inf true => i64Min
  | .inf false => i64Max
  | .fin q =>
    if (if q.isNeg then q.ceilQ else q.floorQ) < i64Min then i64Min
    else if i64Max < (if q.isNeg then q.ceilQ else q.floorQ) then i64Max
    else (if q.isNeg then q.ceilQ else q.floorQ)

/-! ## Timestamps

chrono's `DateTime<FixedOffset>` is modelled as the civil (local)
date-time fields paired with the fixed offset in seconds east of UTC;
the absolute instant is recovered by `instantNs`. -/

structure CivilDT where
  year : Int
  month : Nat
  day : Nat
  hour : Nat
  minute : Nat
  second : Nat
  nanos : Nat
deriving DecidableEq, Repr

structure Timestamp where
  loc : CivilDT
  offSec : Int
deriving DecidableEq, Repr

def secsOfCivil (c : CivilDT) : Int :=
  daysFromCivil c.year c.month c.day * 86400 + c.hour * 3600 + c.minute * 60 + c.second

def localNs (c : CivilDT) : Int := secsOfCivil c * 1000000000 + c.nanos

/-- Nanoseconds since the Unix epoch of the absolute instant. -/
def instantNs (t : Timestamp) : Int := localNs t.loc - t.offSec * 1000000000

def minSecs : Int := minDays * 86400
def maxSecs : Int := maxDays * 86400 + 86399

/-- Outcome of one interpreter strategy: Rust panic, an `Err`, or `Ok`. -/
inductive SOut where
  | panic
  | fail
  | ok (t : Timestamp)
deriving DecidableEq, Repr

def civilOfSecsNs (n : Int) (ns : Nat) : CivilDT :=
  ⟨(civilFromDays (n / 86400)).1, (civilFromDays (n / 86400)).2.1, (civilFromDays (n / 86400)).2.2,
   (n % 86400).toNat / 3600, (n % 86400).toNat % 3600 / 60, (n % 86400).toNat % 60, ns⟩

/-- Models chrono `NaiveDateTime::from_timestamp_opt` (restricted to
`nsecs < 10⁹`, the only way the library calls it). -/
def fromTimestampOpt (n : Int) (ns : Nat) : Option CivilDT :=
  if minSecs ≤ n ∧ n ≤ maxSecs ∧ ns < 1000000000 then some (civilOfSecsNs n ns) else none

def mkUtc (n : Int) (ns : Nat) : SOut :=
  match fromTimestampOpt n ns with
  | some c => .ok ⟨c, 0⟩
  | none => .fail

def ttsOf (s : List Char) : Option Int :=
  match parseI64 s with
  | some n => some n
  | none => (parseF64 s).map f64AsI64

/-- The magnitude-based unit selection of `from_unix_timestamp`
(`src/lib.rs` lines 70-88).  Rust `/` and `%` on `i64` truncate toward
zero; all branches using them have `tts > 0`, where that agrees with the
floor semantics of Lean's `Int` division used here. -/
def classifyTts (tts : Int) : SOut :=
  if tts ≤ 9999999999 then mkUtc tts 0
  else if tts ≤ 9999999999999 then mkUtc (tts / 1000) ((tts % 1000).toNat * 1000000)
  else if tts ≤ 9999999999999999 then mkUtc (tts / 1000000) ((tts % 1000000).toNat * 1000)
  else mkUtc (tts / 1000000000) ((tts % 1000000000).toNat)

def from_unix_timestamp (s : List Char) : SOut :=
  match ttsOf s with
  | some tts => classifyTts tts
  | none => .fail

theorem localNs_civilOfSecsNs (n : Int) (ns : Nat) (h1 : minSecs ≤ n) (h2 : n ≤ maxSecs) :
    localNs (civilOfSecsNs n ns) = n * 1000000000 + ns := by
  have hd1 : minDays ≤ n / 86400 := by unfold minSecs at h1; omega
  have hd2 : n / 86400 ≤ maxDays := by unfold maxSecs at h2; omega
  have hinv := civilFromDays_inv (n / 86400)
  simp only [localNs, secsOfCivil, civilOfSecsNs]
  omega

/-! ## chrono strftime-style parse engine

Models chrono's `format::parse` driven by `StrftimeItems`, for exactly the
format specifiers the library uses.  Numeric items skip leading
whitespace, then read sign-less digits greedily up to the item's width
(a signed item — only `%Y` here — with an explicit `+`/`-` reads
unboundedly many digits); whitespace in a format matches any amount of
input whitespace including none; literals match exactly. -/

def dropWs (s : List Char) : List Char := s.dropWhile Char.isWhitespace

def scanDigitsAux : Nat → List Char → Nat → Nat → Nat × Nat × List Char
  | 0, s, acc, cnt => (acc, cnt, s)
  | _ + 1, [], acc, cnt => (acc, cnt, [])
  | fuel + 1, c :: r, acc, cnt =>
    if c.isDigit then scanDigitsAux fuel r (acc * 10 + digitVal c) (cnt + 1)
    else (acc, cnt, c :: r)

def scanUNum (width : Nat) (s : List Char) : Option (Nat × List Char) :=
  match scanDigitsAux width s 0 0 with
  | (v, cnt, r) => if cnt = 0 then none else some (v, r)

def scanNum (signed : Bool) (width : Nat) (s0 : List Char) : Option (Int × List Char) :=
  match dropWs s0 with
  | '+' :: r => if signed then (scanUNum r.length r).map (fun x => ((x.1 : Int), x.2)) else none
  | '-' :: r => if signed then (scanUNum r.length r).map (fun x => (-(x.1 : Int), x.2)) else none
  | s => (scanUNum width s).map (fun x => ((x.1 : Int), x.2))

def stripPrefixCI : List Char → List Char → Option (List Char)
  | [], s => some s
  | _ :: _, [] => none
  | p :: ps, c :: cs => if toLowerCh c = p then stripPrefixCI ps cs else none

def scanNameAux : List (List Char) → Nat → List Char → Option (Nat × List Char)
  | [], _, _ => none
  | p :: ps, i, s =>
    match stripPrefixCI p s with
    | some r => some (i, r)
    | none => scanNameAux ps (i + 1) s

def monthLongNames : List (List Char) :=
  ["january".toList, "february".toList, "march".toList, "april".toList, "may".toList,
   "june".toList, "july".toList, "august".toList, "september".toList, "october".toList,
   "november".toList, "december".toList]

def monthShortNames : List (List Char) :=
  ["jan".toList, "feb".toList, "mar".toList, "apr".toList, "may".toList, "jun".toList,
   "jul".toList, "aug".toList, "sep".toList, "oct".toList, "nov".toList, "dec".toList]

def wdayLongNames : List (List Char) :=
  ["monday".toList, "tuesday".toList, "wednesday".toList, "thursday".toList,
   "friday".toList, "saturday".toList, "sunday".toList]

def wdayShortNames : List (List Char) :=
  ["mon".toList, "tue".toList, "wed".toList, "thu".toList, "fri".toList, "sat".toList,
   "sun".toList]

def scanAmPm : List Char → Option (Nat × List Char)
  | a :: b :: r =>
    if toLowerCh a = 'a' ∧ toLowerCh b = 'm' then some (0, r)
    else if toLowerCh a = 'p' ∧ toLowerCh b = 'm' then some (1, r)
    else none
  | _ => none

/-- The numeric value of a parsed `±HH[:MM]` offset, in seconds. -/
def offVal (neg : Bool) (h m : Nat) : Int :=
  (if neg then -1 else 1) * ((h : Int) * 3600 + (m : Int) * 60)

theorem offVal_mod60 (neg : Bool) (h m : Nat) : offVal neg h m % 60 = 0 := by
  unfold offVal
  split_ifs <;> omega

/-- chrono `scan::timezone_offset`: sign, two-digit hours, optional colon,
two-digit minutes (optional altogether under `%#z`). -/
def scanOffsetCore (minutesOptional : Bool) (s0 : List Char) : Option (Int × List Char) :=
  match dropWs s0 with
  | c :: h1 :: h2 :: r2 =>
    if (c = '+' ∨ c = '-') ∧ h1.isDigit ∧ h2.isDigit then
      match r2 with
      | ':' :: m1 :: m2 :: r4 =>
        if m1.isDigit ∧ m2.isDigit then
          if digitVal m1 * 10 + digitVal m2 < 60 then
            some (offVal (c = '-') (digitVal h1 * 10 + digitVal h2)
                    (digitVal m1 * 10 + digitVal m2), r4)
          else none
        else none
      | ':' :: _ => none
      | m1 :: m2 :: r4 =>
        if m1.isDigit ∧ m2.isDigit then
          if digitVal m1 * 10 + digitVal m2 < 60 then
            some (offVal (c = '-') (digitVal h1 * 10 + digitVal h2)
                    (digitVal m1 * 10 + digitVal m2), r4)
          else none
        else if minutesOptional then
          some (offVal (c = '-') (digitVal h1 * 10 + digitVal h2) 0, r2)
        else none
      | _ =>
        if minutesOptional then some (offVal (c = '-') (digitVal h1 * 10 + digitVal h2) 0, r2)
        else none
    else none
  | _ => none

/-- chrono `Parsed`: the fields set while matching format items. -/
structure Parsed where
  year : Option Int := none
  yearMod : Option Nat := none
  month : Option Nat := none
  day : Option Nat := none
  hourDiv : Option Nat := none
  hourMod : Option Nat := none
  minute : Option Nat := none
  second : Option Nat := none
  nanos : Option Nat := none
  offset : Option Int := none
  wday : Option Nat := none
deriving DecidableEq, Repr

/-- Setting an already-set field to a different value is a conflict
(chrono `IMPOSSIBLE`). -/
def setV {α : Type} [DecidableEq α] (o : Option α) (v : α) : Option (Option α) :=
  match o with
  | none => some (some v)
  | some w => if w = v then some o else none

def setHour24 (p : Parsed) (v : Nat) : Option Parsed := do
  let hd ← setV p.hourDiv (v / 12)
  let hm ← setV p.hourMod (v % 12)
  some { p with hourDiv := hd, hourMod := hm }

def setHour12 (p : Parsed) (v : Nat) : Option Parsed :=
  if 1 ≤ v ∧ v ≤ 12 then (setV p.hourMod (v % 12)).map (fun hm => { p with hourMod := hm })
  else none

/-- Expand the composite specifiers `%T %D %F %v %c` into their item
sequences (as chrono's `StrftimeItems` does). -/
def expandFmt : List Char → List Char
  | [] => []
  | '%' :: 'T' :: r => "%H:%M:%S".toList ++ expandFmt r
  | '%' :: 'D' :: r => "%m/%d/%y".toList ++ expandFmt r
  | '%' :: 'F' :: r => "%Y-%m-%d".toList ++ expandFmt r
  | '%' :: 'v' :: r => "%e-%b-%Y".toList ++ expandFmt r
  | '%' :: 'c' :: r => "%a %b %e %H:%M:%S %Y".toList ++ expandFmt r
  | '%' :: c :: r => '%' :: c :: expandFmt r
  | c :: r => c :: expandFmt r

def scanFrac (r : List Char) : Option (Nat × List Char) :=
  if r.takeWhile Char.isDigit = [] then none
  else
    some (digitsToNat ((r.takeWhile Char.isDigit).take 9) *
            pow10N (9 - ((r.takeWhile Char.isDigit).take 9).length),
          r.dropWhile Char.isDigit)

/-- Format items, as chrono's `StrftimeItems` iterator yields them. -/
inductive FItem where
  | lit (c : Char)
  | ws
  | numYear
  | numYearMod
  | numMonth
  | numDay
  | numHour
  | numHour12
  | numMinute
  | numSecond
  | numNanos
  | dotF
  | ampm
  | monthName (longOk : Bool)
  | wdayName (longOk : Bool)
  | offsetItem (minutesOptional : Bool)
  | bad
deriving DecidableEq, Repr

/-- Translate an (expanded) strftime string into its item sequence; an
unsupported specifier becomes `bad`, which makes the parse fail (chrono
`BAD_FORMAT`). -/
def itemsOf : List Char → List FItem
  | [] => []
  | '%' :: '.' :: 'f' :: r => .dotF :: itemsOf r
  | '%' :: '#' :: 'z' :: r => .offsetItem true :: itemsOf r
  | '%' :: '-' :: 'm' :: r => .numMonth :: itemsOf r
  | '%' :: '-' :: 'd' :: r => .numDay :: itemsOf r
  | '%' :: '-' :: 'H' :: r => .numHour :: itemsOf r
  | '%' :: '-' :: 'M' :: r => .numMinute :: itemsOf r
  | '%' :: '-' :: 'S' :: r => .numSecond :: itemsOf r
  | '%' :: 'Y' :: r => .numYear :: itemsOf r
  | '%' :: 'y' :: r => .numYearMod :: itemsOf r
  | '%' :: 'm' :: r => .numMonth :: itemsOf r
  | '%' :: 'd' :: r => .numDay :: itemsOf r
  | '%' :: 'e' :: r => .numDay :: itemsOf r
  | '%' :: 'H' :: r => .numHour :: itemsOf r
  | '%' :: 'I' :: r => .numHour12 :: itemsOf r
  | '%' :: 'M' :: r => .numMinute :: itemsOf r
  | '%' :: 'S' :: r => .numSecond :: itemsOf r
  | '%' :: 'f' :: r => .numNanos :: itemsOf r
  | '%' :: 'P' :: r => .ampm :: itemsOf r
  | '%' :: 'p' :: r => .ampm :: itemsOf r
  | '%' :: 'B' :: r => .monthName true :: itemsOf r
  | '%' :: 'b' :: r => .monthName false :: itemsOf r
  | '%' :: 'A' :: r => .wdayName true :: itemsOf r
  | '%' :: 'a' :: r => .wdayName false :: itemsOf r
  | '%' :: 'z' :: r => .offsetItem false :: itemsOf r
  | '%' :: _ :: r => .bad :: itemsOf r
  | ['%'] => [.bad]
  | c :: r => (if c.isWhitespace then .ws else .lit c) :: itemsOf r

def runItem : FItem → List Char → Parsed → Option (List Char × Parsed)
  | .lit c, s, p =>
    match s with
    | x :: xs => if x = c then some (xs, p) else none
    | [] => none
  | .ws, s, p => some (dropWs s, p)
  | .numYear, s, p => do
    let (v, r) ← scanNum true 4 s
    let y ← setV p.year v
    some (r, { p with year := y })
  | .numYearMod, s, p => do
    let (v, r) ← scanNum false 2 s
    let y ← setV p.yearMod v.toNat
    some (r, { p with yearMod := y })
  | .numMonth, s, p => do
    let (v, r) ← scanNum false 2 s
    let mo ← setV p.month v.toNat
    some (r, { p with month := mo })
  | .numDay, s, p => do
    let (v, r) ← scanNum false 2 s
    let d ← setV p.day v.toNat
    some (r, { p with day := d })
  | .numHour, s, p => do
    let (v, r) ← scanNum false 2 s
    let p2 ← setHour24 p v.toNat
    some (r, p2)
  | .numHour12, s, p => do
    let (v, r) ← scanNum false 2 s
    let p2 ← setHour12 p v.toNat
    some (r, p2)
  | .numMinute, s, p => do
    let (v, r) ← scanNum false 2 s
    let mi ← setV p.minute v.toNat
    some (r, { p with minute := mi })
  | .numSecond, s, p => do
    let (v, r) ← scanNum false 2 s
    let se ← setV p.second v.toNat
    some (r, { p with second := se })
  | .numNanos, s, p => do
    let (v, r) ← scanNum false 9 s
    let nn ← setV p.nanos v.toNat
    some (r, { p with nanos := nn })
  | .dotF, s, p =>
    match s with
    | '.' :: r => do
      let (ns, r2) ← scanFrac r
      let nn ← setV p.nanos ns
      some (r2, { p with nanos := nn })
    | _ => some (s, p)
  | .ampm, s, p => do
    let (v, r) ← scanAmPm s
    let hd ← setV p.hourDiv v
    some (r, { p with hourDiv := hd })
  | .monthName longOk, s, p => do
    let (i, r) ←
      (if longOk then scanNameAux monthLongNames 0 s <|> scanNameAux monthShortNames 0 s
       else scanNameAux monthShortNames 0 s)
    let mo ← setV p.month (i + 1)
    some (r, { p with month := mo })
  | .wdayName longOk, s, p => do
    let (i, r) ←
      (if longOk then scanNameAux wdayLongNames 0 s <|> scanNameAux wdayShortNames 0 s
       else scanNameAux wdayShortNames 0 s)
    let w ← setV p.wday i
    some (r, { p with wday := w })
  | .offsetItem minutesOptional, s, p => do
    let (o, r) ← scanOffsetCore minutesOptional s
    let oo ← setV p.offset o
    some (r, { p with offset := oo })
  | .bad, _, _ => none

def runItems : List FItem → List Char → Parsed → Option (List Char × Parsed)
  | [], s, p => some (s, p)
  | it :: its, s, p => do
    let (r, p2) ← runItem it s p
    runItems its r p2

/-! ## chrono `Parsed` resolution -/

def resolvedYear (p : Parsed) : Option Int :=
  match p.year, p.yearMod with
  | some y, _ => some y
  | none, some q => some (if q < 70 then 2000 + (q : Int) else 1900 + (q : Int))
  | none, none => none

def resolveDate (p : Parsed) : Option (Int × Nat × Nat) := do
  let y ← resolvedYear p
  let m ← p.month
  let d ← p.day
  if -262144 ≤ y ∧ y ≤ 262143 ∧ 1 ≤ m ∧ m ≤ 12 ∧ 1 ≤ d ∧ d ≤ monthLen (isLeap y) m then
    match p.wday with
    | none => some (y, m, d)
    | some w => if w = dowOfDays (daysFromCivil y m d) then some (y, m, d) else none
  else none

def resolveTime (p : Parsed) : Option (Nat × Nat × Nat × Nat) := do
  let hd ← p.hourDiv
  let hm ← p.hourMod
  let mi ← p.minute
  if hd ≤ 1 ∧ hm < 12 ∧ mi < 60 ∧ p.second.getD 0 < 60 ∧ p.nanos.getD 0 < 1000000000 then
    some (hd * 12 + hm, mi, p.second.getD 0, p.nanos.getD 0)
  else none

def resolveDT (p : Parsed) : Option CivilDT := do
  let (y, m, d) ← resolveDate p
  let (h, mi, se, ns) ← resolveTime p
  some ⟨y, m, d, h, mi, se, ns⟩

def runFmtFull (fmt s : List Char) : Option Parsed :=
  match runItems (itemsOf (expandFmt fmt)) s {} with
  | some ([], p) => some p
  | _ => none

def parseNaiveDT (fmt s : List Char) : Option CivilDT := (runFmtFull fmt s).bind resolveDT

def parseNaiveDate (fmt s : List Char) : Option (Int × Nat × Nat) :=
  (runFmtFull fmt s).bind resolveDate

def parseNaiveTime (fmt s : List Char) : Option (Nat × Nat × Nat × Nat) :=
  (runFmtFull fmt s).bind resolveTime

def utcRangeOk (n : Int) : Bool := decide (minSecs ≤ n ∧ n ≤ maxSecs)

/-- chrono `DateTime::<FixedOffset>::parse_from_str`. -/
def parseDTFixed (fmt s : List Char) : Option Timestamp := do
  let p ← runFmtFull fmt s
  let c ← resolveDT p
  let off ← p.offset
  if off.natAbs ≤ 86399 ∧ utcRangeOk (secsOfCivil c - off) then some ⟨c, off⟩ else none

/-! ## chrono RFC 3339 parser (also the `%+` specifier) -/

def read2 : List Char → Option (Nat × List Char)
  | a :: b :: r => if a.isDigit ∧ b.isDigit then some (digitVal a * 10 + digitVal b, r) else none
  | _ => none

/-- RFC 3339 year: exactly four digits, or a sign followed by an
arbitrary-width year (the form chrono emits for years outside 0-9999). -/
def scanYear3339 : List Char → Option (Int × List Char)
  | '+' :: r => (scanUNum r.length r).map (fun x => ((x.1 : Int), x.2))
  | '-' :: r => (scanUNum r.length r).map (fun x => (-(x.1 : Int), x.2))
  | a :: b :: c :: d :: r =>
    if a.isDigit ∧ b.isDigit ∧ c.isDigit ∧ d.isDigit then
      some ((digitsToNat [a, b, c, d] : Int), r)
    else none
  | _ => none

def scanOff3339 : List Char → Option (Int × List Char)
  | 'Z' :: r => some (offVal false 0 0, r)
  | 'z' :: r => some (offVal false 0 0, r)
  | c :: r =>
    if c = '+' ∨ c = '-' then
      match read2 r with
      | some (h, r1) =>
        match (match r1 with | ':' :: rr => read2 rr | _ => read2 r1) with
        | some (m, r3) => if m < 60 then some (offVal (c = '-') h m, r3) else none
        | none => none
      | none => none
    else none
  | [] => none

def rfc3339Fin (y : Int) (mo d h mi se ns : Nat) (r : List Char) : Option Timestamp := do
  let (off, r2) ← scanOff3339 r
  if r2 = [] ∧ -262144 ≤ y ∧ y ≤ 262143 ∧ 1 ≤ mo ∧ mo ≤ 12 ∧ 1 ≤ d ∧
     d ≤ monthLen (isLeap y) mo ∧ h < 24 ∧ mi < 60 ∧ se < 60 ∧ ns < 1000000000 ∧
     off.natAbs ≤ 86399 ∧ utcRangeOk (secsOfCivil ⟨y, mo, d, h, mi, se, ns⟩ - off) then
    some ⟨⟨y, mo, d, h, mi, se, ns⟩, off⟩
  else none

def rfc3339Time (y : Int) (mo d : Nat) (r : List Char) : Option Timestamp := do
  let (h, r1) ← read2 r
  match r1 with
  | ':' :: r2 => do
    let (mi, r3) ← read2 r2
    match r3 with
    | ':' :: r4 => do
      let (se, r5) ← read2 r4
      match r5 with
      | '.' :: rf => do
        let (ns, r6) ← scanFrac rf
        rfc3339Fin y mo d h mi se ns r6
      | _ => rfc3339Fin y mo d h mi se 0 r5
    | _ => none
  | _ => none

def rfc3339Parse (s : List Char) : Option Timestamp := do
  let (y, r1) ← scanYear3339 s
  match r1 with
  | '-' :: r2 => do
    let (mo, r3) ← read2 r2
    match r3 with
    | '-' :: r4 => do
      let (d, r5) ← read2 r4
      match r5 with
      | sep :: r6 =>
        if sep = 'T' ∨ sep = 't' ∨ sep = ' ' then rfc3339Time y mo d r6 else none
      | [] => none
    | _ => none
  | _ => none

/-! ## chrono RFC 2822 parser -/

/-- The RFC 2822 obsolete zone names chrono resolves to an offset; any
other alphabetic zone is consumed without an offset, which makes the
overall parse fail (offset missing). -/
def zoneNameOff (nm : List Char) : Option Int :=
  if nm.map toLowerCh = "gmt".toList ∨ nm.map toLowerCh = "ut".toList ∨
     nm.map toLowerCh = "z".toList then some (offVal false 0 0)
  else if nm.map toLowerCh = "edt".toList then some (offVal true 4 0)
  else if nm.map toLowerCh = "est".toList ∨ nm.map toLowerCh = "cdt".toList then
    some (offVal true 5 0)
  else if nm.map toLowerCh = "cst".toList ∨ nm.map toLowerCh = "mdt".toList then
    some (offVal true 6 0)
  else if nm.map toLowerCh = "mst".toList ∨ nm.map toLowerCh = "pdt".toList then
    some (offVal true 7 0)
  else if nm.map toLowerCh = "pst".toList then some (offVal true 8 0)
  else none

def rfc2822Zone (s : List Char) : Option (Int × List Char) :=
  if s.takeWhile Char.isAlpha ≠ [] then
    (zoneNameOff (s.takeWhile Char.isAlpha)).map (fun o => (o, s.dropWhile Char.isAlpha))
  else
    match s with
    | c :: r =>
      if c = '+' ∨ c = '-' then
        match read2 r with
        | some (h, r1) =>
          match read2 r1 with
          | some (m, r2) => if m < 60 then some (offVal (c = '-') h m, r2) else none
          | none => none
        | none => none
      else none
    | [] => none

def rfc2822Year (v : Nat) : Int :=
  if v < 50 then 2000 + (v : Int) else if v < 1000 then 1900 + (v : Int) else (v : Int)

def wdOk (wd : Option Nat) (y : Int) (mo d : Nat) : Bool :=
  match wd with
  | none => true
  | some w => w == dowOfDays (daysFromCivil y mo d)

def rfc2822Fin (wd : Option Nat) (y : Int) (mo d h mi se : Nat) (r : List Char) :
    Option Timestamp := do
  let (off, r2) ← rfc2822Zone (dropWs r)
  if dropWs r2 = [] ∧ -262144 ≤ y ∧ y ≤ 262143 ∧ 1 ≤ mo ∧ mo ≤ 12 ∧ 1 ≤ d ∧
     d ≤ monthLen (isLeap y) mo ∧ h < 24 ∧ mi < 60 ∧ se < 60 ∧ off.natAbs ≤ 86399 ∧
     wdOk wd y mo d ∧
     utcRangeOk (secsOfCivil ⟨y, mo, d, h, mi, se, 0⟩ - off) then
    some ⟨⟨y, mo, d, h, mi, se, 0⟩, off⟩
  else none

def rfc2822AfterWday (wd : Option Nat) (s : List Char) : Option Timestamp := do
  let (d, r1) ← scanUNum 2 (dropWs s)
  let (moIdx, r2) ← scanNameAux monthShortNames 0 (dropWs r1)
  match scanDigitsAux (dropWs r2).length (dropWs r2) 0 0 with
  | (v, cnt, r3) =>
    if cnt < 2 then none
    else do
      let (h, r4) ← read2 (dropWs r3)
      match dropWs r4 with
      | ':' :: r5 => do
        let (mi, r6) ← read2 (dropWs r5)
        match dropWs r6 with
        | ':' :: r7 => do
          let (se, r8) ← read2 (dropWs r7)
          rfc2822Fin wd (rfc2822Year v) (moIdx + 1) d h mi se r8
        | r9 => rfc2822Fin wd (rfc2822Year v) (moIdx + 1) d h mi 0 r9
      | _ => none

def rfc2822Parse (s : List Char) : Option Timestamp :=
  match scanNameAux wdayShortNames 0 (dropWs s) with
  | some (w, r) =>
    (match dropWs r with
     | ',' :: r2 => rfc2822AfterWday (some w) r2
     | _ => none)
  | none => rfc2822AfterWday none (dropWs s)

/-! ## Formatting -/

def yearPad4 (y : Int) : List Char :=
  if y < 0 then '-' :: padNat 3 (-y).toNat else padNat 4 y.toNat

def wdayShortUpper (w : Nat) : List Char :=
  if w = 0 then "Mon".toList else if w = 1 then "Tue".toList else if w = 2 then "Wed".toList
  else if w = 3 then "Thu".toList else if w = 4 then "Fri".toList
  else if w = 5 then "Sat".toList else "Sun".toList

def monthShortUpper (m : Nat) : List Char :=
  if m = 1 then "Jan".toList else if m = 2 then "Feb".toList else if m = 3 then "Mar".toList
  else if m = 4 then "Apr".toList else if m = 5 then "May".toList
  else if m = 6 then "Jun".toList else if m = 7 then "Jul".toList
  else if m = 8 then "Aug".toList else if m = 9 then "Sep".toList
  else if m = 10 then "Oct".toList else if m = 11 then "Nov".toList else "Dec".toList

/-- chrono formatting of `"%a, %d %b %Y %H:%M:%S"` (used by `to_rfc2822`
in `src/lib.rs` to rebuild an RFC 2822 string). -/
def fmt2822 (c : CivilDT) : List Char :=
  wdayShortUpper (dowOfDays (daysFromCivil c.year c.month c.day)) ++ [',', ' '] ++
  padNat 2 c.day ++ [' '] ++ monthShortUpper c.month ++ [' '] ++ yearPad4 c.year ++ [' '] ++
  padNat 2 c.hour ++ [':'] ++ padNat 2 c.minute ++ [':'] ++ padNat 2 c.second

/-- chrono `DateTime::to_rfc3339` (`SecondsFormat::AutoSi`, no `Z`;
years outside 0-9999 are written with an explicit sign, `"{:+05}"`). -/
def yearStr3339 (y : Int) : List Char :=
  if 0 ≤ y ∧ y ≤ 9999 then padNat 4 y.toNat
  else if y < 0 then '-' :: padNat 4 (-y).toNat
  else '+' :: padNat 4 y.toNat

def fracStr (ns : Nat) : List Char :=
  if ns = 0 then []
  else if ns % 1000000 = 0 then '.' :: padNat 3 (ns / 1000000)
  else if ns % 1000 = 0 then '.' :: padNat 6 (ns / 1000)
  else '.' :: padNat 9 ns

def offStr (off : Int) : List Char :=
  (if off < 0 then '-' else '+') ::
    (padNat 2 (off.natAbs / 3600) ++ [':'] ++ padNat 2 (off.natAbs % 3600 / 60))

def toRfc3339 (t : Timestamp) : List Char :=
  yearStr3339 t.loc.year ++ ['-'] ++ padNat 2 t.loc.month ++ ['-'] ++ padNat 2 t.loc.day ++
  ['T'] ++ padNat 2 t.loc.hour ++ [':'] ++ padNat 2 t.loc.minute ++ [':'] ++
  padNat 2 t.loc.second ++ fracStr t.loc.nanos ++ offStr t.offSec

/-! ## The library's environment: the platform timezone and clock

`Local::from_local_datetime` and `Local::now()` are external
collaborators; an `Env` supplies them.  `LocalRes` is chrono's
`LocalResult`; the library calls `.unwrap()` on it, which panics unless
the result is `Single`. -/

inductive LocalRes where
  | noRes
  | single (off : Int)
  | ambig (o1 o2 : Int)
deriving DecidableEq, Repr

structure Env where
  localAt : CivilDT → LocalRes
  now : CivilDT

/-- `Local.from_local_datetime(&x).unwrap().with_timezone(offset)`:
panics unless the lookup is `Single`; constructing the `DateTime`
(naive local minus offset) panics on range overflow. -/
def attachLocal (env : Env) (c : CivilDT) : SOut :=
  match env.localAt c with
  | .single o =>
    if o.natAbs ≤ 86399 ∧ utcRangeOk (secsOfCivil c - o) then .ok ⟨c, o⟩ else .panic
  | _ => .panic

/-! ## String helpers used by the library -/

def trimWs (s : List Char) : List Char := (dropWs (dropWs s).reverse).reverse

/-- Rust `s.rsplitn(2, ' ')`: the part after the last space and the part
before it (the whole string counts as the after-part when there is no
space). Returned as (before, after). -/
def splitLastSpace (s : List Char) : List Char × List Char :=
  match s.reverse.dropWhile (fun c => ¬ c = ' ') with
  | ' ' :: dtRev => (dtRev.reverse, (s.reverse.takeWhile (fun c => ¬ c = ' ')).reverse)
  | _ => ([], (s.reverse.takeWhile (fun c => ¬ c = ' ')).reverse)

def splitWsF : Nat → List Char → List (List Char)
  | 0, _ => []
  | fuel + 1, s =>
    match dropWs s with
    | [] => []
    | s2 => s2.takeWhile (fun c => ¬ c.isWhitespace) ::
              splitWsF fuel (s2.dropWhile (fun c => ¬ c.isWhitespace))

/-- Rust `split_whitespace`. -/
def splitWs (s : List Char) : List (List Char) := splitWsF s.length s

def joinSpace : List (List Char) → List Char
  | [] => []
  | [x] => x
  | x :: xs => x ++ ' ' :: joinSpace xs

def replaceAllF : Nat → List Char → List Char → List Char → List Char
  | 0, _, _, s => s
  | _ + 1, _, _, [] => []
  | fuel + 1, pat, rep, c :: rest =>
    if pat.isPrefixOf (c :: rest) then
      rep ++ replaceAllF fuel pat rep ((c :: rest).drop pat.length)
    else c :: replaceAllF fuel pat rep rest

/-- Rust `str::replace`: left-to-right, non-overlapping. -/
def replaceAll (pat rep s : List Char) : List Char := replaceAllF (s.length + 1) pat rep s

/-! ## `standardize_date` (src/lib.rs lines 438-456)

`s.len()` is the UTF-8 byte length; `.chars().take(8)` takes eight
characters; `&s[8..]` slices at byte offset 8 and panics (modelled as
`none`) when byte 8 is not a character boundary. -/

def utf8Len (s : List Char) : Nat := (s.map Char.utf8Size).sum

def dropBytesF : Nat → List Char → Option (List Char)
  | 0, s => some s
  | _ + 1, [] => none
  | n + 1, c :: r => if c.utf8Size ≤ n + 1 then dropBytesF (n + 1 - c.utf8Size) r else none

def sepMap (c : Char) : Char := if c = '.' ∨ c = '/' then '-' else c

def standardize_date (s : List Char) : Option (List Char) :=
  (if utf8Len s < 8 then some s
   else
     match dropBytesF 8 s with
     | none => none
     | some rest => some ((s.take 8).map sepMap ++ rest)).map
    (fun b =>
      (replaceAll " UT".toList " GMT".toList
          (replaceAll " UTC".toList " GMT".toList b)).filter
        (fun c => ¬ c = ',' ∧ ¬ c = ';'))

/-! ## `is_tz_alpha` and the shared `to_rfc2822` resolver -/

def is_tz_alpha (s : List Char) : Option (List Char × List Char) :=
  if ((splitLastSpace (trimWs s)).2).all Char.isAlpha then some (splitLastSpace (trimWs s))
  else none

def tryFmtsNaive (s : List Char) : List (List Char) → Option CivilDT
  | [] => none
  | f :: fs =>
    match parseNaiveDT f s with
    | some c => some c
    | none => tryFmtsNaive s fs

def tryFmtsDT (s : List Char) : List (List Char) → Option Timestamp
  | [] => none
  | f :: fs =>
    match parseDTFixed f s with
    | some t => some t
    | none => tryFmtsDT s fs

def tryFmtsDate (s : List Char) : List (List Char) → Option (Int × Nat × Nat)
  | [] => none
  | f :: fs =>
    match parseNaiveDate f s with
    | some d => some d
    | none => tryFmtsDate s fs

def tryFmtsTime (s : List Char) : List (List Char) → Option (Nat × Nat × Nat × Nat)
  | [] => none
  | f :: fs =>
    match parseNaiveTime f s with
    | some t => some t
    | none => tryFmtsTime s fs

def fmts2822 : List (List Char) :=
  ["%Y-%m-%d %H:%M:%S".toList, "%Y-%m-%d %I:%M%P".toList, "%Y-%m-%d %I:%M %P".toList,
   "%Y-%m-%d %H:%M".toList, "%d %B %Y %T".toList, "%d %B %Y %T.%f".toList,
   "%B %d %Y %H:%M".toList, "%B %d %Y %T".toList, "%B %d %Y %T.%f".toList,
   "%A %B %d %Y %T.%f".toList, "%A %B %d %Y %T".toList, "%A %d %B %Y %T".toList,
   "%A %d %B %Y %T.%f".toList, "%A %d %m %Y %T.%f".toList, "%A %d %m %Y %T".toList,
   "%A %d %m %Y %T".toList, "%A %d %m %Y %T.%f".toList, "%A %d %m %T.%f %Y".toList,
   "%A %d %m %T %Y".toList, "%A %d %B %T.%f %Y".toList, "%A %d %B %T %Y".toList,
   "%A %B %d %T.%f %Y".toList, "%A %B %d %T %Y".toList, "%A %m %d %H:%M %Y".toList,
   "%A %d %m %H:%M %Y".toList, "%A %d %B %H:%M %Y".toList, "%A %B %d %H:%M %Y".toList,
   "%A %m %d %I:%M%P %Y".toList, "%A %d %m %I:%M%P %Y".toList, "%A %d %B %I:%M %P %Y".toList,
   "%A %d %B %I:%M%P %Y".toList, "%A %B %d %I:%M %P %Y".toList, "%A %B %d %I:%M%P %Y".toList,
   "%d %m %T.%f %Y".toList, "%d %m %T %Y".toList, "%d %B %T.%f %Y".toList,
   "%d %B %T %Y".toList, "%B %d %T.%f %Y".toList, "%B %d %T %Y".toList,
   "%m %d %I:%M %Y".toList, "%d %m %I:%M %Y".toList, "%d %B %I:%M %Y".toList,
   "%B %d %I:%M %Y".toList, "%m %d %I:%M%P %Y".toList, "%d %m %I:%M%P %Y".toList,
   "%d %B %I:%M %P %Y".toList, "%d %B %I:%M%P %Y".toList, "%B %d %I:%M %P %Y".toList,
   "%B %d %I:%M%P %Y".toList]

/-- `to_rfc2822` (src/lib.rs lines 377-433): parse the date/time fragment
against the format list, reformat as `"%a, %d %b %Y %H:%M:%S"` plus the
timezone token, and hand the result to the RFC 2822 parser. -/
def to_rfc2822 (s tz : List Char) : SOut :=
  match tryFmtsNaive s fmts2822 with
  | some c =>
    match rfc2822Parse (fmt2822 c ++ [' '] ++ tz) with
    | some t => .ok t
    | none => .fail
  | none => .fail

/-! ## The twelve interpreter strategies (src/lib.rs lines 95-361) -/

def from_iso_plus (s : List Char) : SOut :=
  match rfc3339Parse s with
  | some t => .ok t
  | none => .fail

def fmtsWithTz : List (List Char) :=
  ["%Y-%m-%dT%T%.f%z".toList, "%Y-%m-%d %T%#z".toList, "%Y-%m-%d %T.%f%#z".toList,
   "%B %d %Y %T %#z".toList, "%B %d %Y %T.%f%#z".toList, "%A %d %B %Y %T.%f%#z".toList,
   "%A %d %B %Y %T %#z".toList, "%A %d %B %T %#z %Y".toList, "%A %B %d %T %#z %Y".toList,
   "%A %d %B %T.%f %#z %Y".toList, "%A %B %d %T.%f %#z %Y".toList,
   "%A %d %B %H:%M %#z %Y".toList, "%A %B %d %H:%M %#z %Y".toList,
   "%A %d %B %I:%M %P %#z %Y".toList, "%A %B %d %I:%M %P %#z %Y".toList,
   "%A %d %B %I:%M%P %#z %Y".toList, "%A %B %d %I:%M%P %#z %Y".toList]

def from_datetime_with_tz (s : List Char) : SOut :=
  match rfc3339Parse s with
  | some t => .ok t
  | none =>
    match rfc2822Parse s with
    | some t => .ok t
    | none =>
      match tryFmtsDT s fmtsWithTz with
      | some t => .ok t
      | none => .fail

def fmtsWithoutTz : List (List Char) :=
  ["%Y-%m-%dT%T".toList, "%c".toList, "%Y-%m-%dT%T.%f".toList, "%Y-%m-%d %T".toList,
   "%Y-%m-%d %T.%f".toList, "%Y %b %d %T".toList, "%B %d %Y %T".toList,
   "%B %d %Y %T.%f".toList, "%B %d, %Y %T".toList, "%B %d, %Y %T.%f".toList,
   "%Y-%m-%d %T".toList, "%Y-%m-%d %T.%f".toList, "%A %d %B %Y %T.%f".toList,
   "%A %d %B %Y %T".toList, "%A %d %B %Y %I:%M%P".toList, "%A %d %B %Y %I:%M %P".toList,
   "%A %d %B %Y %I:%M:%S%P".toList, "%A %d %B %Y %I:%M:%S %P".toList,
   "%A %d %m %Y %I:%M%P".toList, "%A %d %m %Y %I:%M %P".toList,
   "%A %d %m %Y %I:%M:%S%P".toList, "%A %d %m %Y %I:%M:%S %P".toList,
   "%d %B %Y %I:%M%P".toList, "%d %B %Y %I:%M %P".toList, "%d %B %Y %I:%M:%S%P".toList,
   "%d %B %Y %I:%M:%S %P".toList, "%d %m %Y %I:%M%P".toList, "%d %m %Y %I:%M %P".toList,
   "%d %m %Y %I:%M:%S%P".toList, "%d %m %Y %I:%M:%S %P".toList,
   "%-m-%-d-%Y %-H:%-M:%-S %p".toList, "%d %b %Y %H:%M:%S".toList]

def from_datetime_without_tz (env : Env) (s : List Char) : SOut :=
  match tryFmtsNaive s fmtsWithoutTz with
  | some c => attachLocal env c
  | none => .fail

def fmtsDateOnly : List (List Char) :=
  ["%Y-%m-%d".toList, "%m-%d-%y".toList, "%D".toList, "%F".toList, "%v".toList,
   "%B %d %Y".toList, "%d %B %Y".toList]

def from_date_without_tz (env : Env) (s : List Char) : SOut :=
  match tryFmtsDate s fmtsDateOnly with
  | some (y, m, d) => attachLocal env ⟨y, m, d, 0, 0, 0, 0⟩
  | none => .fail

def fmtsTimeOnly : List (List Char) :=
  ["%T".toList, "%I:%M%P".toList, "%I:%M %P".toList]

def from_time_without_tz (env : Env) (s : List Char) : SOut :=
  match tryFmtsTime s fmtsTimeOnly with
  | some (h, mi, se, ns) =>
    attachLocal env ⟨env.now.year, env.now.month, env.now.day, h, mi, se, ns⟩
  | none => .fail

def yearPadNowStr (env : Env) : List Char :=
  yearPad4 env.now.year ++ ['-'] ++ padNat 2 env.now.month ++ ['-'] ++ padNat 2 env.now.day

def from_time_with_tz (env : Env) (s : List Char) : SOut :=
  match is_tz_alpha s with
  | some (dt, tz) => to_rfc2822 (yearPadNowStr env ++ [' '] ++ dt) tz
  | none => .fail

def from_datetime_with_tz_before_year (s : List Char) : SOut :=
  if (splitWs s).length < 2 then .fail
  else
    to_rfc2822
      (joinSpace ((splitWs s).take ((splitWs s).length - 2)) ++ [' '] ++
        (splitWs s).getD ((splitWs s).length - 1) [])
      ((splitWs s).getD ((splitWs s).length - 2) [])

def try_yms_hms_tz (s : List Char) : SOut :=
  match is_tz_alpha s with
  | some (dt, tz) => to_rfc2822 dt tz
  | none => .fail

def try_dmmmy_hms_tz (s : List Char) : SOut :=
  match is_tz_alpha s with
  | some (dt, tz) => to_rfc2822 dt tz
  | none => .fail

def fmtsMmmDd : List (List Char) :=
  ["%B %d %Y %H:%M:%S %z".toList, "%B %d %Y %I:%M:%S%P %z".toList,
   "%B %d %Y %I:%M:%S %P %z".toList, "%A %B %d %Y %H:%M:%S %z".toList,
   "%A %B %d %Y %I:%M%P %z".toList, "%A %B %d %Y %I:%M %P %z".toList]

def try_mmmddyyyy_hms_tz (s : List Char) : SOut :=
  if ¬ s.contains ' ' then .fail
  else
    if replaceAll "GMT".toList [] (splitLastSpace s).2 = [] then .fail
    else
      match
        tryFmtsDT
          ((splitLastSpace s).1 ++ [' '] ++
            (replaceAll "GMT".toList [] (splitLastSpace s).2).filter (fun c => ¬ c = ':'))
          fmtsMmmDd
      with
      | some t => .ok t
      | none => .fail

def intStr (y : Int) : List Char := if y < 0 then '-' :: natDigits (-y).toNat else natDigits y.toNat

def fmtsOthers3a : List (List Char) :=
  ["%B %d %Y %H:%M".toList, "%b %d %Y %H:%M".toList, "%B %d %Y %T".toList,
   "%b %d %Y %T".toList, "%b %d %Y %T%.f".toList, "%B %d %Y %T".toList,
   "%B %d %Y %I:%M%P".toList]

def fmtsOthers3b : List (List Char) :=
  ["%d %B %Y %H:%M".toList, "%d %B %Y %T".toList, "%d %B %Y %I:%M%P".toList]

def try_others (env : Env) (s : List Char) : SOut :=
  if (splitWs s).length = 2 ∧ ((splitWs s).getD 0 []).all Char.isAlpha then
    match parseNaiveDate "%B %d %Y".toList (s ++ [' '] ++ intStr env.now.year) with
    | some (y, m, d) => attachLocal env ⟨y, m, d, 0, 0, 0, 0⟩
    | none => .fail
  else if (splitWs s).length = 2 ∧ ((splitWs s).getD 1 []).all Char.isAlpha then
    match parseNaiveDate "%d %B %Y".toList (s ++ [' '] ++ intStr env.now.year) with
    | some (y, m, d) => attachLocal env ⟨y, m, d, 0, 0, 0, 0⟩
    | none => .fail
  else if (splitWs s).length = 3 ∧
      (((splitWs s).getD 0 []).filter (fun c => ¬ c = ',')).all Char.isAlpha then
    match
      tryFmtsNaive
        ((splitWs s).getD 0 [] ++ [' '] ++ (splitWs s).getD 1 [] ++ [' '] ++
          intStr env.now.year ++ [' '] ++ (splitWs s).getD 2 [])
        fmtsOthers3a
    with
    | some c => attachLocal env c
    | none => .fail
  else if (splitWs s).length = 3 ∧ ((splitWs s).getD 1 []).all Char.isAlpha then
    match
      tryFmtsNaive
        ((splitWs s).getD 0 [] ++ [' '] ++ (splitWs s).getD 1 [] ++ [' '] ++
          intStr env.now.year ++ [' '] ++ (splitWs s).getD 2 [])
        fmtsOthers3b
    with
    | some c => attachLocal env c
    | none => .fail
  else if (splitWs s).length = 4 ∧ ((splitWs s).getD 0 []).all Char.isAlpha then
    match
      parseNaiveDT "%B %d %Y %I:%M %P".toList
        ((splitWs s).getD 0 [] ++ [' '] ++ (splitWs s).getD 1 [] ++ [' '] ++
          intStr env.now.year ++ [' '] ++ (splitWs s).getD 2 [] ++ [' '] ++ (splitWs s).getD 3 [])
    with
    | some c => attachLocal env c
    | none => .fail
  else if (splitWs s).length = 4 ∧ ((splitWs s).getD 1 []).all Char.isAlpha then
    match
      parseNaiveDT "%d %B %Y %I:%M %P".toList
        ((splitWs s).getD 0 [] ++ [' '] ++ (splitWs s).getD 1 [] ++ [' '] ++
          intStr env.now.year ++ [' '] ++ (splitWs s).getD 2 [] ++ [' '] ++ (splitWs s).getD 3 [])
    with
    | some c => attachLocal env c
    | none => .fail
  else .fail

/-! ## The interpreter chain and entry point (src/lib.rs lines 44-62) -/

inductive StratTag where
  | unixTs | isoPlus | dtWithTz | dtWithoutTz | dateOnly | timeOnly | timeWithTz
  | yms | dmmmy | mmmddyyyy | beforeYear | others
deriving DecidableEq, Repr

def applyStrat (env : Env) (tag : StratTag) (s : List Char) : SOut :=
  match tag with
  | .unixTs => from_unix_timestamp s
  | .isoPlus => from_iso_plus s
  | .dtWithTz => from_datetime_with_tz s
  | .dtWithoutTz => from_datetime_without_tz env s
  | .dateOnly => from_date_without_tz env s
  | .timeOnly => from_time_without_tz env s
  | .timeWithTz => from_time_with_tz env s
  | .yms => try_yms_hms_tz s
  | .dmmmy => try_dmmmy_hms_tz s
  | .mmmddyyyy => try_mmmddyyyy_hms_tz s
  | .beforeYear => from_datetime_with_tz_before_year s
  | .others => try_others env s

/-- The strategies in the order `parse_from` chains them with `or_else`. -/
def chainOrder : List StratTag :=
  [.unixTs, .isoPlus, .dtWithTz, .dtWithoutTz, .dateOnly, .timeOnly, .timeWithTz,
   .yms, .dmmmy, .mmmddyyyy, .beforeYear, .others]

def runChain (env : Env) : List StratTag → List Char → SOut
  | [], _ => .fail
  | t :: ts, s =>
    match applyStrat env t s with
    | .fail => runChain env ts s
    | x => x

inductive PFail where
  | emptyInput
  | noStrategy
deriving DecidableEq, Repr

inductive Outcome where
  | panic
  | failure (e : PFail)
  | ok (t : Timestamp)
deriving DecidableEq, Repr

def parse_from (env : Env) (s : List Char) : Outcome :=
  if s = [] then .failure .emptyInput
  else
    match standardize_date s with
    | none => .panic
    | some s2 =>
      match runChain env chainOrder s2 with
      | .panic => .panic
      | .fail => .failure .noStrategy
      | .ok t => .ok t

/-! ## Test environment used by concrete witnesses and counterexamples

A fixed-rule timezone (+02:00 during a summer window, +01:00 otherwise —
the shape of the Central European timezone the repository's test
expectations were recorded in) and a fixed current local datetime. -/

def envTest : Env :=
  ⟨fun c =>
      .single
        (if (c.month = 3 ∧ 26 ≤ c.day) ∨ (4 ≤ c.month ∧ c.month ≤ 9) ∨
            (c.month = 10 ∧ c.day ≤ 26) then 7200
         else 3600),
    ⟨2024, 3, 15, 12, 0, 0, 0⟩⟩

/-- The local offset the platform reports for "now" (resolution time). -/
def envNowOff (env : Env) : LocalRes := env.localAt env.now

/-! ## Claim C2 -/

/-- C2: the claim says the entry point never panics and that
`standardize_date` succeeds on every input.  The code disagrees:
`standardize_date` slices at byte offset 8 (`&s[8..]`), which panics when
byte 8 falls inside a multi-byte UTF-8 character.  `"0000000é"` (seven
ASCII characters followed by the two-byte `é` spanning bytes 7-8) makes
`standardize_date` — and with it the entry point — panic. -/
theorem C2_standardize_panics :
    standardize_date "0000000é".toList = none ∧
    parse_from envTest "0000000é".toList = .panic := by decide

/-! ## Claim C8 -/

/-- C8: parsing the empty string returns the `EmptyInput` failure before
any strategy runs (the guard precedes `standardize_date` and the chain),
and no non-empty input ever produces that failure (the chain's failure is
the distinct `NoStrategyMatched`-style failure). -/
theorem C8_empty_input :
    (∀ env : Env, parse_from env [] = .failure .emptyInput) ∧
    (∀ (env : Env) (s : List Char), s ≠ [] → parse_from env s ≠ .failure .emptyInput) := by
  constructor
  · intro env
    rfl
  · intro env s hs
    unfold parse_from
    rw [if_neg hs]
    cases hsd : standardize_date s with
    | none => simp
    | some s2 => cases hrc : runChain env chainOrder s2 <;> simp [hrc]

theorem C8_empty_input_witness :
    parse_from envTest [] = .failure .emptyInput ∧
    parse_from envTest "x".toList ≠ .failure .emptyInput :=
  ⟨C8_empty_input.1 envTest, C8_empty_input.2 envTest "x".toList (by decide)⟩

/-! ## Claim C3 -/

theorem runChain_first (env : Env) (s : List Char) :
    ∀ (l : List StratTag) (i : Nat) (h : i < l.length) (t : Timestamp),
      (∀ j (hj : j < i), applyStrat env (l.get ⟨j, by omega⟩) s = .fail) →
      applyStrat env (l.get ⟨i, h⟩) s = .ok t →
      runChain env l s = .ok t := by
  intro l
  induction l with
  | nil => intro i h; simp at h
  | cons hd tl ih =>
    intro i h t hfail hok
    cases i with
    | zero =>
      unfold runChain
      simp only [List.get] at hok
      rw [hok]
    | succ n =>
      have h0 := hfail 0 (by omega)
      simp only [List.get] at h0 hok
      unfold runChain
      rw [h0]
      exact ih n (by simpa using h) t (fun j hj => hfail (j + 1) (by omega)) hok

/-- Modelled from the spec: the strategy order as listed in spec section
4.2 — the before-year strategy appears as item 7 (and again as item 11),
and item 2's two standard parsers are split into their two code-level
steps in the listed order. -/
def specChainOrder : List StratTag :=
  [.unixTs, .isoPlus, .dtWithTz, .dtWithoutTz, .dateOnly, .timeOnly, .timeWithTz,
   .beforeYear, .yms, .dmmmy, .mmmddyyyy, .beforeYear, .others]

/-- C3 counterexample: the code's chain order is not the spec-listed
order — in the code the before-year strategy is tried eleventh, after the
three trailing-offset strategies the spec lists as items 8-10, so the
claim's "strategy 7 wins over strategies 8-10" precedence is not the
code's precedence. -/
theorem C3_counterexample :
    chainOrder ≠ specChainOrder ∧
    ¬ chainOrder.indexOf StratTag.beforeYear < chainOrder.indexOf StratTag.yms ∧
    ¬ chainOrder.indexOf StratTag.beforeYear < chainOrder.indexOf StratTag.mmmddyyyy := by
  decide

/-- C3 (amended): the chain tries the strategies in the code's fixed
order and short-circuits on the first success: whenever every strategy
before index `i` rejects the (standardized) input and strategy `i`
accepts it, the chain returns strategy `i`'s result.  In that order the
generic trailing-offset strategies sit at indices 7-9 and the before-year
strategy at index 10, so an input accepted by both gets the
trailing-offset strategies' result, not the before-year one's. -/
theorem C3_chain_order :
    (∀ (env : Env) (s2 : List Char) (i : Nat) (h : i < chainOrder.length) (t : Timestamp),
      (∀ j (hj : j < i), applyStrat env (chainOrder.get ⟨j, by omega⟩) s2 = .fail) →
      applyStrat env (chainOrder.get ⟨i, h⟩) s2 = .ok t →
      runChain env chainOrder s2 = .ok t) ∧
    chainOrder.get ⟨7, by decide⟩ = .yms ∧ chainOrder.get ⟨8, by decide⟩ = .dmmmy ∧
    chainOrder.get ⟨9, by decide⟩ = .mmmddyyyy ∧ chainOrder.get ⟨10, by decide⟩ = .beforeYear :=
  ⟨fun env s2 i h t hfail hok => runChain_first env s2 chainOrder i h t hfail hok,
   by decide, by decide, by decide, by decide⟩

theorem C3_chain_order_witness :
    runChain envTest chainOrder "1672903639".toList = .ok ⟨⟨2023, 1, 5, 7, 27, 19, 0⟩, 0⟩ :=
  C3_chain_order.1 envTest "1672903639".toList 0 (by decide) ⟨⟨2023, 1, 5, 7, 27, 19, 0⟩, 0⟩
    (fun j hj => absurd hj (by omega)) (by decide)

/-! ## Claims C1, C5, C9, C10 — the numeric-epoch interpreter -/

theorem mkUtc_ok (a : Int) (ns : Nat) (h1 : minSecs ≤ a) (h2 : a ≤ maxSecs)
    (h3 : ns < 1000000000) :
    mkUtc a ns = .ok ⟨civilOfSecsNs a ns, 0⟩ ∧
    instantNs ⟨civilOfSecsNs a ns, 0⟩ = a * 1000000000 + ns := by
  constructor
  · unfold mkUtc fromTimestampOpt
    rw [if_pos ⟨h1, h2, h3⟩]
  · have := localNs_civilOfSecsNs a ns h1 h2
    simp only [instantNs]
    omega

theorem isDigit_ne_sign {c : Char} (h : c.isDigit = true) : ¬ c = '+' ∧ ¬ c = '-' := by
  constructor <;> rintro rfl <;> simp [Char.isDigit] at h

theorem parseI64_digits (s : List Char) (h1 : s ≠ []) (h2 : s.all Char.isDigit = true) :
    parseI64 s =
      if (digitsToNat s : Int) ≤ i64Max then some ((digitsToNat s : Int)) else none := by
  cases s with
  | nil => exact absurd rfl h1
  | cons c r =>
    have hc : c.isDigit = true := by
      have := List.all_eq_true.mp h2 c (by simp)
      simpa using this
    obtain ⟨hp, hm⟩ := isDigit_ne_sign hc
    simp only [parseI64]
    rw [if_neg hp, if_neg hm]
    unfold parseUDecCore
    rw [if_pos ⟨by simp, h2⟩]
    rfl

theorem from_unix_of_ttsOf (s : List Char) (tts : Int) (h : ttsOf s = some tts) :
    from_unix_timestamp s = classifyTts tts := by
  unfold from_unix_timestamp
  rw [h]

theorem ttsOf_float (s : List Char) (v : FVal) (h1 : parseI64 s = none)
    (h2 : parseF64 s = some v) : ttsOf s = some (f64AsI64 v) := by
  unfold ttsOf
  rw [h1, h2]
  rfl

/-- C1 (amended): for every non-empty decimal-digit string whose value
fits in a signed 64-bit integer, the numeric-epoch interpreter succeeds
at UTC offset zero and reads the value `n` as epoch seconds when
`n ≤ 9999999999` (at most ten digits), milliseconds when
`n ≤ 9999999999999` (11-13 digits), microseconds when
`n ≤ 9999999999999999` (14-16 digits), and nanoseconds otherwise.
Values above `i64::MAX` take the `f64` fallback and saturate (see the
counterexample), so the instant is no longer the stated function of the
number. -/
theorem C1_epoch_units (s : List Char) (h1 : s ≠ []) (h2 : s.all Char.isDigit = true)
    (h3 : (digitsToNat s : Int) ≤ i64Max) :
    ∃ t : Timestamp,
      from_unix_timestamp s = .ok t ∧ t.offSec = 0 ∧
      instantNs t =
        (if (digitsToNat s : Int) ≤ 9999999999 then (digitsToNat s : Int) * 1000000000
         else if (digitsToNat s : Int) ≤ 9999999999999 then (digitsToNat s : Int) * 1000000
         else if (digitsToNat s : Int) ≤ 9999999999999999 then (digitsToNat s : Int) * 1000
         else (digitsToNat s : Int)) := by
  have hminP : minSecs ≤ 0 := by decide
  have hmaxP : (9999999999 : Int) ≤ maxSecs := by decide
  set n : Int := (digitsToNat s : Int) with hn
  have hn0 : 0 ≤ n := by positivity
  have hi : ttsOf s = some n := by
    unfold ttsOf
    rw [parseI64_digits s h1 h2, if_pos h3]
  rw [from_unix_of_ttsOf s n hi]
  unfold classifyTts
  by_cases c1 : n ≤ 9999999999
  · rw [if_pos c1, if_pos c1]
    obtain ⟨ho, hv⟩ := mkUtc_ok n 0 (by omega) (by omega) (by omega)
    exact ⟨_, ho, rfl, by omega⟩
  · rw [if_neg c1, if_neg c1]
    by_cases c2 : n ≤ 9999999999999
    · rw [if_pos c2, if_pos c2]
      obtain ⟨ho, hv⟩ := mkUtc_ok (n / 1000) ((n % 1000).toNat * 1000000)
        (by omega) (by omega) (by omega)
      exact ⟨_, ho, rfl, by rw [hv]; omega⟩
    · rw [if_neg c2, if_neg c2]
      by_cases c3 : n ≤ 9999999999999999
      · rw [if_pos c3, if_pos c3]
        obtain ⟨ho, hv⟩ := mkUtc_ok (n / 1000000) ((n % 1000000).toNat * 1000)
          (by omega) (by omega) (by omega)
        exact ⟨_, ho, rfl, by rw [hv]; omega⟩
      · rw [if_neg c3, if_neg c3]
        have hns : n / 1000000000 ≤ maxSecs := by
          have : n ≤ i64Max := h3
          have : i64Max / 1000000000 ≤ maxSecs := by decide
          omega
        obtain ⟨ho, hv⟩ := mkUtc_ok (n / 1000000000) ((n % 1000000000).toNat)
          (by omega) hns (by omega)
        exact ⟨_, ho, rfl, by rw [hv]; omega⟩

theorem C1_epoch_units_witness :
    (∃ t : Timestamp, from_unix_timestamp "9999999999".toList = .ok t ∧ t.offSec = 0 ∧
       instantNs t = 9999999999000000000) ∧
    (∃ t : Timestamp, from_unix_timestamp "10000000000".toList = .ok t ∧ t.offSec = 0 ∧
       instantNs t = 10000000000000000) := by
  constructor
  · obtain ⟨t, ho, hz, hv⟩ := C1_epoch_units "9999999999".toList (by decide) (by decide) (by decide)
    exact ⟨t, ho, hz, hv.trans (by decide)⟩
  · obtain ⟨t, ho, hz, hv⟩ :=
      C1_epoch_units "10000000000".toList (by decide) (by decide) (by decide)
    exact ⟨t, ho, hz, hv.trans (by decide)⟩

/-- C1 counterexample: `"18446744073709551616"` (2⁶⁴, a 20-digit
non-negative decimal integer) overflows `i64`, is re-parsed as an `f64`
and saturates at `i64::MAX` in the `as i64` cast; the interpreter
succeeds, but the instant is `i64::MAX` nanoseconds
(2262-04-11T23:47:16.854775807Z), not the number read as nanoseconds. -/
theorem C1_counterexample :
    from_unix_timestamp "18446744073709551616".toList =
      .ok ⟨⟨2262, 4, 11, 23, 47, 16, 854775807⟩, 0⟩ ∧
    instantNs ⟨⟨2262, 4, 11, 23, 47, 16, 854775807⟩, 0⟩ = 9223372036854775807 ∧
    ¬ instantNs ⟨⟨2262, 4, 11, 23, 47, 16, 854775807⟩, 0⟩ = 18446744073709551616 := by
  decide

/-- C10: the unit selection compares the signed value against the
positive thresholds, so any negative value — regardless of digit count —
falls into the first branch and is read as epoch seconds; the 13-digit
negative string `"-1672903639123"` is read as seconds (year -51043),
never as milliseconds. -/
theorem C10_negative_seconds :
    (∀ (s : List Char) (tts : Int), ttsOf s = some tts → tts < 0 →
      from_unix_timestamp s = mkUtc tts 0) ∧
    from_unix_timestamp "-1672903639123".toList = .ok ⟨⟨-51043, 10, 17, 8, 41, 17, 0⟩, 0⟩ ∧
    instantNs ⟨⟨-51043, 10, 17, 8, 41, 17, 0⟩, 0⟩ = -1672903639123 * 1000000000 ∧
    ¬ instantNs ⟨⟨-51043, 10, 17, 8, 41, 17, 0⟩, 0⟩ = -1672903639123 * 1000000 := by
  refine ⟨?_, by decide, by decide, by decide⟩
  intro s tts h hneg
  rw [from_unix_of_ttsOf s tts h]
  unfold classifyTts
  rw [if_pos (by omega : tts ≤ 9999999999)]

theorem C10_negative_seconds_witness :
    from_unix_timestamp "-5".toList = mkUtc (-5) 0 :=
  C10_negative_seconds.1 "-5".toList (-5) (by decide) (by decide)

/-- C9 counterexample: `"-10000000000000"` is accepted by floating-point
parsing (value −5120000000000000/512 = −10¹³), but the numeric-epoch interpreter rejects it: the
value is classified as seconds and −10¹³ s is outside the representable
timestamp range, so `from_timestamp_opt` fails. -/
theorem C9_counterexample :
    parseF64 "-10000000000000".toList = some (.fin ⟨-5120000000000000, 512⟩) ∧
    from_unix_timestamp "-10000000000000".toList = .fail := by
  decide

/-- C9 (amended): the numeric-epoch interpreter attempts any string the
floating-point parser accepts (not only integer/decimal literals) —
interpreting the `as i64`-cast value, success still being subject to the
timestamp range check — and for `"NaN"` (cast to 0) the entry point
returns Ok with the instant 1970-01-01T00:00:00 at UTC offset zero. -/
theorem C9_float_path :
    (∀ env : Env, parse_from env "NaN".toList = .ok ⟨⟨1970, 1, 1, 0, 0, 0, 0⟩, 0⟩) ∧
    (∀ (s : List Char) (v : FVal), parseI64 s = none → parseF64 s = some v →
      from_unix_timestamp s = classifyTts (f64AsI64 v)) := by
  constructor
  · intro env
    rfl
  · intro s v h1 h2
    exact from_unix_of_ttsOf s (f64AsI64 v) (ttsOf_float s v h1 h2)

theorem C9_float_path_witness :
    from_unix_timestamp "NaN".toList = classifyTts (f64AsI64 FVal.nan) :=
  C9_float_path.2 "NaN".toList FVal.nan (by decide) (by decide)

/-- C5 (amended): a fractional numeric input is truncated by the
`as i64` cast before unit selection, so the fractional sub-unit remainder
is discarded, never preserved: whenever the float path classifies the
value as epoch seconds, the resulting timestamp's sub-second part is
exactly zero; in particular `"1672903639.5"` yields
2023-01-05T07:27:19 UTC with zero nanoseconds. -/
theorem C5_fraction_truncated :
    (∀ (s : List Char) (q : Q2) (t : Timestamp), parseI64 s = none →
      parseF64 s = some (.fin q) → f64AsI64 (.fin q) ≤ 9999999999 →
      from_unix_timestamp s = .ok t → t.loc.nanos = 0) ∧
    from_unix_timestamp "1672903639.5".toList = .ok ⟨⟨2023, 1, 5, 7, 27, 19, 0⟩, 0⟩ := by
  refine ⟨?_, by decide⟩
  intro s q t h1 h2 hle hok
  rw [from_unix_of_ttsOf s (f64AsI64 (.fin q)) (ttsOf_float s (.fin q) h1 h2)] at hok
  unfold classifyTts at hok
  rw [if_pos hle] at hok
  unfold mkUtc at hok
  cases hf : fromTimestampOpt (f64AsI64 (.fin q)) 0 with
  | none => rw [hf] at hok; exact absurd hok (by simp)
  | some c =>
    rw [hf] at hok
    unfold fromTimestampOpt at hf
    by_cases hc : minSecs ≤ f64AsI64 (.fin q) ∧ f64AsI64 (.fin q) ≤ maxSecs ∧
        (0 : Nat) < 1000000000
    · rw [if_pos hc] at hf
      have hceq : c = civilOfSecsNs (f64AsI64 (.fin q)) 0 := by
        injection hf with h
        exact h.symm
      have hteq : t = ⟨c, 0⟩ := by
        injection hok with h
        exact h.symm
      rw [hteq, hceq]
      rfl
    · rw [if_neg hc] at hf
      exact absurd hf (by simp)

theorem C5_fraction_truncated_witness :
    (Timestamp.mk ⟨2023, 1, 5, 7, 27, 19, 0⟩ 0).loc.nanos = 0 :=
  C5_fraction_truncated.1 "1672903639.5".toList ⟨7016666426769408, 4194304⟩
    ⟨⟨2023, 1, 5, 7, 27, 19, 0⟩, 0⟩ (by decide) (by decide) (by decide)
    C5_fraction_truncated.2

/-- C5 counterexample: parsing `"1672903639.5"` succeeds but the
resulting instant is exactly 1672903639 s — the `.5` is not preserved as
sub-second precision. -/
theorem C5_counterexample :
    from_unix_timestamp "1672903639.5".toList = .ok ⟨⟨2023, 1, 5, 7, 27, 19, 0⟩, 0⟩ ∧
    instantNs ⟨⟨2023, 1, 5, 7, 27, 19, 0⟩, 0⟩ = 1672903639000000000 ∧
    ¬ instantNs ⟨⟨2023, 1, 5, 7, 27, 19, 0⟩, 0⟩ = 1672903639500000000 := by
  decide

/-! ## Claim C4 -/

theorem attachLocal_fields (env : Env) (c : CivilDT) (t : Timestamp)
    (h : attachLocal env c = .ok t) : t.loc = c ∧ env.localAt c = .single t.offSec := by
  unfold attachLocal at h
  split at h
  · rename_i o heq
    split at h
    · injection h with h2
      subst h2
      exact ⟨rfl, heq⟩
    · cases h
  · cases h

/-- C4 (amended): the three offset-less interpreters attach the local
offset that the platform timezone reports for the *parsed* local
datetime (`Local.from_local_datetime(&parsed)`), not the offset current
at resolution time; the two coincide only when the timezone's offset at
the parsed datetime equals today's.  Date-only inputs get midnight, and
time-only inputs get today's date. -/
theorem C4_offset_at_parsed_datetime (env : Env) (s : List Char) (t : Timestamp) :
    (from_datetime_without_tz env s = .ok t → env.localAt t.loc = .single t.offSec) ∧
    (from_date_without_tz env s = .ok t →
      env.localAt t.loc = .single t.offSec ∧ t.loc.hour = 0 ∧ t.loc.minute = 0 ∧
      t.loc.second = 0 ∧ t.loc.nanos = 0) ∧
    (from_time_without_tz env s = .ok t →
      env.localAt t.loc = .single t.offSec ∧ t.loc.year = env.now.year ∧
      t.loc.month = env.now.month ∧ t.loc.day = env.now.day) := by
  refine ⟨?_, ?_, ?_⟩
  · intro h
    unfold from_datetime_without_tz at h
    cases hp : tryFmtsNaive s fmtsWithoutTz with
    | none => rw [hp] at h; cases h
    | some c =>
      rw [hp] at h
      obtain ⟨hloc, hsingle⟩ := attachLocal_fields env c t h
      rw [hloc]
      exact hsingle
  · intro h
    unfold from_date_without_tz at h
    cases hp : tryFmtsDate s fmtsDateOnly with
    | none => rw [hp] at h; cases h
    | some ymd =>
      rw [hp] at h
      obtain ⟨hloc, hsingle⟩ := attachLocal_fields env ⟨ymd.1, ymd.2.1, ymd.2.2, 0, 0, 0, 0⟩ t h
      rw [hloc]
      exact ⟨hsingle, rfl, rfl, rfl, rfl⟩
  · intro h
    unfold from_time_without_tz at h
    cases hp : tryFmtsTime s fmtsTimeOnly with
    | none => rw [hp] at h; cases h
    | some hms =>
      rw [hp] at h
      obtain ⟨hloc, hsingle⟩ :=
        attachLocal_fields env
          ⟨env.now.year, env.now.month, env.now.day, hms.1, hms.2.1, hms.2.2.1, hms.2.2.2⟩ t h
      rw [hloc]
      exact ⟨hsingle, rfl, rfl, rfl⟩

theorem C4_offset_at_parsed_datetime_witness :
    envTest.localAt (Timestamp.mk ⟨2023, 8, 7, 8, 23, 50, 0⟩ 7200).loc = .single 7200 :=
  (C4_offset_at_parsed_datetime envTest "8-7-2023 8:23:50 AM".toList
      ⟨⟨2023, 8, 7, 8, 23, 50, 0⟩, 7200⟩).1 (by decide)

/-- C4 counterexample: in the test environment (whose timezone reports
+02:00 for August 2023 datetimes but +01:00 for the March 2024 "now" —
exactly the pattern of the repository's own test expectations), parsing
the offset-less `"8/7/2023 8:23:50 AM"` attaches +02:00 even though the
process's current local offset at resolution time is +01:00, refuting
"equals exactly the process's current local UTC offset at resolution
time". -/
theorem C4_counterexample :
    parse_from envTest "8/7/2023 8:23:50 AM".toList =
      .ok ⟨⟨2023, 8, 7, 8, 23, 50, 0⟩, 7200⟩ ∧
    envNowOff envTest = .single 3600 ∧ ¬ (7200 : Int) = 3600 := by
  decide

/-! ## Claim C7 -/

/-- The claim's transformation: `.` and `/` in the first eight characters
rewritten to `-`. -/
def replaceSeps8 (s : List Char) : List Char := (s.take 8).map sepMap ++ s.drop 8

theorem one_le_utf8Size (c : Char) : 1 ≤ c.utf8Size := Char.utf8Size_pos c

theorem length_le_utf8Len (s : List Char) : s.length ≤ utf8Len s := by
  induction s with
  | nil => simp [utf8Len]
  | cons c r ih =>
    have := one_le_utf8Size c
    simp only [utf8Len, List.map_cons, List.sum_cons, List.length_cons] at ih ⊢
    omega

theorem sepMap_utf8Size (c : Char) : (sepMap c).utf8Size = c.utf8Size := by
  unfold sepMap
  split_ifs with h
  · rcases h with h | h <;> subst h <;> rfl
  · rfl

theorem sepMap_ne (c : Char) : ¬ (sepMap c = '.' ∨ sepMap c = '/') := by
  unfold sepMap
  split_ifs with h
  · decide
  · exact h

theorem sepMap_idem (c : Char) : sepMap (sepMap c) = sepMap c := by
  have h := sepMap_ne c
  unfold sepMap at h ⊢
  rw [if_neg h]

theorem dropBytesF_ascii :
    ∀ (k : Nat) (s : List Char), k ≤ s.length → (∀ c ∈ s.take k, c.utf8Size = 1) →
      dropBytesF k s = some (s.drop k) := by
  intro k
  induction k with
  | zero => intro s _ _; cases s <;> rfl
  | succ n ih =>
    intro s hlen hall
    cases s with
    | nil => simp at hlen
    | cons c r =>
      have hc : c.utf8Size = 1 := hall c (by simp)
      unfold dropBytesF
      rw [hc]
      rw [if_pos (by omega)]
      have he : n + 1 - 1 = n := by omega
      rw [he]
      exact ih r (by simpa using hlen) (fun x hx => hall x (by simp [hx]))

theorem standardize_replaceSeps8 (s : List Char) (h8 : 8 ≤ s.length)
    (hascii : ∀ c ∈ s.take 8, c.utf8Size = 1) :
    standardize_date (replaceSeps8 s) = standardize_date s := by
  have hlen8 : (s.take 8).length = 8 := by
    rw [List.length_take]
    omega
  have hmaplen : ((s.take 8).map sepMap).length = 8 := by
    rw [List.length_map]
    exact hlen8
  have hpfx : (replaceSeps8 s).take 8 = (s.take 8).map sepMap :=
    List.take_left' hmaplen
  have hsuffix : (replaceSeps8 s).drop 8 = s.drop 8 :=
    List.drop_left' hmaplen
  have hlen' : (replaceSeps8 s).length = s.length := by
    unfold replaceSeps8
    rw [List.length_append, List.length_map, List.length_take, List.length_drop]
    omega
  have hascii' : ∀ c ∈ (replaceSeps8 s).take 8, c.utf8Size = 1 := by
    rw [hpfx]
    intro c hc
    obtain ⟨a, ha, rfl⟩ := List.mem_map.mp hc
    rw [sepMap_utf8Size]
    exact hascii a ha
  have hu1 : ¬ utf8Len s < 8 := by
    have := length_le_utf8Len s
    omega
  have hu2 : ¬ utf8Len (replaceSeps8 s) < 8 := by
    have := length_le_utf8Len (replaceSeps8 s)
    omega
  have hd1 : dropBytesF 8 s = some (s.drop 8) := dropBytesF_ascii 8 s h8 hascii
  have hd2 : dropBytesF 8 (replaceSeps8 s) = some ((replaceSeps8 s).drop 8) :=
    dropBytesF_ascii 8 (replaceSeps8 s) (by omega) hascii'
  unfold standardize_date
  rw [if_neg hu1, if_neg hu2, hd1, hd2, hsuffix, hpfx]
  have hmapidem : ((s.take 8).map sepMap).map sepMap = (s.take 8).map sepMap := by
    rw [List.map_map]
    exact List.map_congr_left (fun c _ => sepMap_idem c)
  rw [hmapidem]

/-- C7: rewriting `.`/`/` separators to `-` in the (ASCII) first eight
characters of an input of at least eight characters does not change the
parse result — the preprocessor performs exactly this rewrite itself, so
both inputs standardize identically; in particular `"1970.12.31"` parses
to 1970-12-31T00:00:00 at the environment's local offset. -/
theorem C7_separator_normalization :
    (∀ (env : Env) (s : List Char), 8 ≤ s.length → (∀ c ∈ s.take 8, c.utf8Size = 1) →
      parse_from env (replaceSeps8 s) = parse_from env s) ∧
    parse_from envTest "1970.12.31".toList = .ok ⟨⟨1970, 12, 31, 0, 0, 0, 0⟩, 3600⟩ := by
  constructor
  · intro env s h8 hascii
    have hs1 : ¬ s = [] := by
      intro h
      subst h
      simp at h8
    have hlen' : (replaceSeps8 s).length = s.length := by
      unfold replaceSeps8
      rw [List.length_append, List.length_map, List.length_take, List.length_drop]
      omega
    have hs2 : ¬ replaceSeps8 s = [] := by
      intro h
      have h0 : (replaceSeps8 s).length = 0 := by rw [h]; rfl
      omega
    unfold parse_from
    rw [if_neg hs1, if_neg hs2, standardize_replaceSeps8 s h8 hascii]
  · decide

theorem C7_separator_normalization_witness :
    parse_from envTest (replaceSeps8 "1970.12.31".toList) =
      parse_from envTest "1970.12.31".toList :=
  C7_separator_normalization.1 envTest "1970.12.31".toList (by decide) (by decide)


/-! ## Claim C6 — well-formedness invariants -/

def ValidCivil (c : CivilDT) : Prop :=
  -262144 ≤ c.year ∧ c.year ≤ 262143 ∧ 1 ≤ c.month ∧ c.month ≤ 12 ∧ 1 ≤ c.day ∧
  c.day ≤ monthLen (isLeap c.year) c.month ∧ c.hour < 24 ∧ c.minute < 60 ∧ c.second < 60 ∧
  c.nanos < 1000000000

/-- The invariants every timestamp produced by the parser satisfies. -/
def Wf (t : Timestamp) : Prop :=
  ValidCivil t.loc ∧ t.offSec.natAbs ≤ 86399 ∧ t.offSec % 60 = 0 ∧
  utcRangeOk (secsOfCivil t.loc - t.offSec) = true

/-- A well-behaved platform environment: the timezone lookup yields
minute-granularity offsets and "now" is a valid civil datetime. -/
def EnvWf (env : Env) : Prop :=
  (∀ c o, env.localAt c = .single o → o % 60 = 0) ∧ ValidCivil env.now

theorem scanOffsetCore_mod60 (b : Bool) (s : List Char) (o : Int) (r : List Char)
    (h : scanOffsetCore b s = some (o, r)) : o % 60 = 0 := by
  unfold scanOffsetCore at h
  repeat' split at h
  all_goals try cases h
  all_goals exact offVal_mod60 _ _ _

theorem scanOff3339_mod60 (s : List Char) (o : Int) (r : List Char)
    (h : scanOff3339 s = some (o, r)) : o % 60 = 0 := by
  unfold scanOff3339 at h
  repeat' split at h
  all_goals try cases h
  all_goals exact offVal_mod60 _ _ _

theorem zoneNameOff_mod60 (nm : List Char) (o : Int) (h : zoneNameOff nm = some o) :
    o % 60 = 0 := by
  unfold zoneNameOff at h
  split_ifs at h
  all_goals try cases h
  all_goals exact offVal_mod60 _ _ _

theorem rfc2822Zone_mod60 (s : List Char) (o : Int) (r : List Char)
    (h : rfc2822Zone s = some (o, r)) : o % 60 = 0 := by
  unfold rfc2822Zone at h
  split at h
  · rw [Option.map_eq_some'] at h
    obtain ⟨o2, ho2, h2⟩ := h
    injection h2 with ha hb
    subst ha
    exact zoneNameOff_mod60 _ _ ho2
  · repeat' split at h
    all_goals try cases h
    all_goals exact offVal_mod60 _ _ _

/-! ### Wf propagation through every `ok`-producing path -/

theorem obind_eq_some {α β : Type} (x : Option α) (f : α → Option β) (b : β) :
    (x >>= f) = some b ↔ ∃ a, x = some a ∧ f a = some b := Option.bind_eq_some

theorem setV_cases {α : Type} [DecidableEq α] (o : Option α) (v : α) (w : Option α)
    (h : setV o v = some w) : w = some v ∨ w = o := by
  unfold setV at h
  split at h
  · cases h; left; rfl
  · split at h
    · cases h; right; rfl
    · cases h

theorem secsOfCivil_civilOfSecsNs (n : Int) (ns : Nat) :
    secsOfCivil (civilOfSecsNs n ns) = n := by
  have hinv := civilFromDays_inv (n / 86400)
  simp only [secsOfCivil, civilOfSecsNs]
  omega

theorem civilOfSecsNs_valid (n : Int) (ns : Nat) (h1 : minSecs ≤ n) (h2 : n ≤ maxSecs)
    (h3 : ns < 1000000000) : ValidCivil (civilOfSecsNs n ns) := by
  have hd1 : minDays ≤ n / 86400 := by unfold minSecs at h1; omega
  have hd2 : n / 86400 ≤ maxDays := by unfold maxSecs at h2; omega
  have hv := civilFromDays_valid (n / 86400) hd1 hd2
  unfold ValidCivil civilOfSecsNs
  simp only
  exact ⟨hv.1, hv.2.1, hv.2.2.1, hv.2.2.2.1, hv.2.2.2.2.1, hv.2.2.2.2.2,
    by omega, by omega, by omega, h3⟩

theorem mkUtc_wf (n : Int) (ns : Nat) (t : Timestamp) (h : mkUtc n ns = .ok t) : Wf t := by
  unfold mkUtc fromTimestampOpt at h
  split at h
  · rename_i c heq
    split at heq
    · rename_i hcond
      cases heq
      cases h
      refine ⟨civilOfSecsNs_valid n ns hcond.1 hcond.2.1 hcond.2.2, Nat.zero_le _, rfl, ?_⟩
      rw [secsOfCivil_civilOfSecsNs]
      unfold utcRangeOk
      simp only [decide_eq_true_eq]
      omega
    · cases heq
  · cases h

theorem attachLocal_wf (env : Env) (c : CivilDT) (t : Timestamp) (henv : EnvWf env)
    (hc : ValidCivil c) (h : attachLocal env c = .ok t) : Wf t := by
  unfold attachLocal at h
  split at h
  · rename_i o heq
    split at h
    · rename_i hcond
      cases h
      exact ⟨hc, hcond.1, henv.1 c o heq, hcond.2⟩
    · cases h
  · cases h

theorem resolveDate_some (p : Parsed) (y : Int) (m d : Nat)
    (h : resolveDate p = some (y, m, d)) :
    -262144 ≤ y ∧ y ≤ 262143 ∧ 1 ≤ m ∧ m ≤ 12 ∧ 1 ≤ d ∧ d ≤ monthLen (isLeap y) m := by
  unfold resolveDate at h
  simp only [obind_eq_some, Option.bind_eq_some] at h
  obtain ⟨y2, hy, m2, hm, d2, hd, h⟩ := h
  split at h
  · rename_i hcond
    split at h
    · cases h
      exact hcond
    · split at h
      · cases h
        exact hcond
      · cases h
  · cases h

theorem resolveTime_some (p : Parsed) (hh mi se ns : Nat)
    (h : resolveTime p = some (hh, mi, se, ns)) :
    hh < 24 ∧ mi < 60 ∧ se < 60 ∧ ns < 1000000000 := by
  unfold resolveTime at h
  simp only [obind_eq_some, Option.bind_eq_some] at h
  obtain ⟨hd, hhd, hm, hhm, mi2, hmi, h⟩ := h
  split at h
  · rename_i hcond
    cases h
    omega
  · cases h

theorem resolveDT_valid (p : Parsed) (c : CivilDT) (h : resolveDT p = some c) : ValidCivil c := by
  unfold resolveDT at h
  simp only [obind_eq_some, Option.bind_eq_some] at h
  obtain ⟨⟨y, m, d⟩, hdate, ⟨hh, mi, se, ns⟩, htime, h⟩ := h
  cases h
  have h1 := resolveDate_some p y m d hdate
  have h2 := resolveTime_some p hh mi se ns htime
  exact ⟨h1.1, h1.2.1, h1.2.2.1, h1.2.2.2.1, h1.2.2.2.2.1, h1.2.2.2.2.2,
    h2.1, h2.2.1, h2.2.2.1, h2.2.2.2⟩

/-- The offset invariant the strftime engine maintains. -/
def POff (p : Parsed) : Prop := ∀ o : Int, p.offset = some o → o % 60 = 0

theorem runItem_off (it : FItem) (s : List Char) (p : Parsed) (r : List Char) (p2 : Parsed)
    (h : runItem it s p = some (r, p2)) (hp : POff p) : POff p2 := by
  intro o ho
  cases it
  case lit c =>
    simp only [runItem] at h
    split at h
    · split at h
      · cases h; exact hp o ho
      · cases h
    · cases h
  case ws =>
    simp only [runItem] at h
    cases h; exact hp o ho
  case numYear =>
    simp only [runItem, obind_eq_some, Option.bind_eq_some] at h
    obtain ⟨⟨v, r2⟩, hv, h⟩ := h
    simp only [obind_eq_some, Option.bind_eq_some] at h
    obtain ⟨y2, hy, h⟩ := h
    cases h; exact hp o ho
  case numYearMod =>
    simp only [runItem, obind_eq_some, Option.bind_eq_some] at h
    obtain ⟨⟨v, r2⟩, hv, h⟩ := h
    simp only [obind_eq_some, Option.bind_eq_some] at h
    obtain ⟨y2, hy, h⟩ := h
    cases h; exact hp o ho
  case numMonth =>
    simp only [runItem, obind_eq_some, Option.bind_eq_some] at h
    obtain ⟨⟨v, r2⟩, hv, h⟩ := h
    simp only [obind_eq_some, Option.bind_eq_some] at h
    obtain ⟨y2, hy, h⟩ := h
    cases h; exact hp o ho
  case numDay =>
    simp only [runItem, obind_eq_some, Option.bind_eq_some] at h
    obtain ⟨⟨v, r2⟩, hv, h⟩ := h
    simp only [obind_eq_some, Option.bind_eq_some] at h
    obtain ⟨y2, hy, h⟩ := h
    cases h; exact hp o ho
  case numHour =>
    simp only [runItem, obind_eq_some, Option.bind_eq_some] at h
    obtain ⟨⟨v, r2⟩, hv, h⟩ := h
    simp only [obind_eq_some, Option.bind_eq_some] at h
    obtain ⟨p3, hp3, h⟩ := h
    cases h
    unfold setHour24 at hp3
    simp only [obind_eq_some, Option.bind_eq_some] at hp3
    obtain ⟨hd, hhd, hm, hhm, hp3⟩ := hp3
    cases hp3
    exact hp o ho
  case numHour12 =>
    simp only [runItem, obind_eq_some, Option.bind_eq_some] at h
    obtain ⟨⟨v, r2⟩, hv, h⟩ := h
    simp only [obind_eq_some, Option.bind_eq_some] at h
    obtain ⟨p3, hp3, h⟩ := h
    cases h
    unfold setHour12 at hp3
    split at hp3
    · simp only [Option.map_eq_some'] at hp3
      obtain ⟨hm, hhm, hp3⟩ := hp3
      cases hp3
      exact hp o ho
    · cases hp3
  case numMinute =>
    simp only [runItem, obind_eq_some, Option.bind_eq_some] at h
    obtain ⟨⟨v, r2⟩, hv, h⟩ := h
    simp only [obind_eq_some, Option.bind_eq_some] at h
    obtain ⟨y2, hy, h⟩ := h
    cases h; exact hp o ho
  case numSecond =>
    simp only [runItem, obind_eq_some, Option.bind_eq_some] at h
    obtain ⟨⟨v, r2⟩, hv, h⟩ := h
    simp only [obind_eq_some, Option.bind_eq_some] at h
    obtain ⟨y2, hy, h⟩ := h
    cases h; exact hp o ho
  case numNanos =>
    simp only [runItem, obind_eq_some, Option.bind_eq_some] at h
    obtain ⟨⟨v, r2⟩, hv, h⟩ := h
    simp only [obind_eq_some, Option.bind_eq_some] at h
    obtain ⟨y2, hy, h⟩ := h
    cases h; exact hp o ho
  case dotF =>
    simp only [runItem] at h
    split at h
    · simp only [obind_eq_some, Option.bind_eq_some] at h
      obtain ⟨⟨ns, r2⟩, hns, h⟩ := h
      simp only [obind_eq_some, Option.bind_eq_some] at h
      obtain ⟨nn, hnn, h⟩ := h
      cases h; exact hp o ho
    · cases h; exact hp o ho
  case ampm =>
    simp only [runItem, obind_eq_some, Option.bind_eq_some] at h
    obtain ⟨⟨v, r2⟩, hv, h⟩ := h
    simp only [obind_eq_some, Option.bind_eq_some] at h
    obtain ⟨y2, hy, h⟩ := h
    cases h; exact hp o ho
  case monthName longOk =>
    simp only [runItem, obind_eq_some, Option.bind_eq_some] at h
    obtain ⟨⟨i, r2⟩, hi, h⟩ := h
    simp only [obind_eq_some, Option.bind_eq_some] at h
    obtain ⟨y2, hy, h⟩ := h
    cases h; exact hp o ho
  case wdayName longOk =>
    simp only [runItem, obind_eq_some, Option.bind_eq_some] at h
    obtain ⟨⟨i, r2⟩, hi, h⟩ := h
    simp only [obind_eq_some, Option.bind_eq_some] at h
    obtain ⟨y2, hy, h⟩ := h
    cases h; exact hp o ho
  case offsetItem mo =>
    simp only [runItem, obind_eq_some, Option.bind_eq_some] at h
    obtain ⟨⟨o2, r2⟩, ho2, h⟩ := h
    simp only [obind_eq_some, Option.bind_eq_some] at h
    obtain ⟨oo, hoo, h⟩ := h
    cases h
    rcases setV_cases p.offset o2 oo hoo with hc | hc
    · rw [hc] at ho
      cases ho
      exact scanOffsetCore_mod60 _ _ _ _ ho2
    · rw [hc] at ho
      exact hp o ho
  case bad =>
    simp only [runItem] at h
    cases h

theorem runItems_off (its : List FItem) (s : List Char) (p : Parsed) (r : List Char) (p2 : Parsed)
    (h : runItems its s p = some (r, p2)) (hp : POff p) : POff p2 := by
  induction its generalizing s p with
  | nil =>
    unfold runItems at h
    cases h
    exact hp
  | cons it its ih =>
    unfold runItems at h
    simp only [obind_eq_some, Option.bind_eq_some] at h
    obtain ⟨⟨r1, p1⟩, h1, h2⟩ := h
    exact ih r1 p1 h2 (runItem_off it s p r1 p1 h1 hp)

theorem runFmtFull_off (fmt s : List Char) (p : Parsed) (h : runFmtFull fmt s = some p) :
    POff p := by
  unfold runFmtFull at h
  split at h
  · rename_i p' heq
    cases h
    exact runItems_off _ _ _ _ _ heq (fun o ho => by cases ho)
  · cases h

theorem parseDTFixed_wf (fmt s : List Char) (t : Timestamp) (h : parseDTFixed fmt s = some t) :
    Wf t := by
  unfold parseDTFixed at h
  simp only [obind_eq_some, Option.bind_eq_some] at h
  obtain ⟨p, hp, c, hc, off, hoff, h⟩ := h
  split at h
  · rename_i hcond
    cases h
    exact ⟨resolveDT_valid p c hc, hcond.1, runFmtFull_off fmt s p hp off hoff, hcond.2⟩
  · cases h

theorem rfc3339Fin_wf (y : Int) (mo d hh mi se ns : Nat) (r : List Char) (t : Timestamp)
    (h : rfc3339Fin y mo d hh mi se ns r = some t) : Wf t := by
  unfold rfc3339Fin at h
  simp only [obind_eq_some, Option.bind_eq_some] at h
  obtain ⟨⟨off, r2⟩, hoff, h⟩ := h
  split at h
  · rename_i hcond
    cases h
    obtain ⟨h1, h2, h3, h4, h5, h6, h7, h8, h9, h10, h11, h12, h13⟩ := hcond
    exact ⟨⟨h2, h3, h4, h5, h6, h7, h8, h9, h10, h11⟩, h12,
      scanOff3339_mod60 r off r2 hoff, h13⟩
  · cases h

theorem rfc3339Time_wf (y : Int) (mo d : Nat) (r : List Char) (t : Timestamp)
    (h : rfc3339Time y mo d r = some t) : Wf t := by
  unfold rfc3339Time at h
  simp only [obind_eq_some, Option.bind_eq_some] at h
  obtain ⟨⟨hh, r1⟩, h1, h⟩ := h
  split at h
  · simp only [obind_eq_some, Option.bind_eq_some] at h
    obtain ⟨⟨mi, r3⟩, h2, h⟩ := h
    split at h
    · simp only [obind_eq_some, Option.bind_eq_some] at h
      obtain ⟨⟨se, r5⟩, h3, h⟩ := h
      split at h
      · simp only [obind_eq_some, Option.bind_eq_some] at h
        obtain ⟨⟨ns, r6⟩, h4, h⟩ := h
        exact rfc3339Fin_wf _ _ _ _ _ _ _ _ _ h
      · exact rfc3339Fin_wf _ _ _ _ _ _ _ _ _ h
    · cases h
  · cases h

theorem rfc3339Parse_wf (s : List Char) (t : Timestamp) (h : rfc3339Parse s = some t) : Wf t := by
  unfold rfc3339Parse at h
  simp only [obind_eq_some, Option.bind_eq_some] at h
  obtain ⟨⟨y, r1⟩, h1, h⟩ := h
  split at h
  · simp only [obind_eq_some, Option.bind_eq_some] at h
    obtain ⟨⟨mo, r3⟩, h2, h⟩ := h
    split at h
    · simp only [obind_eq_some, Option.bind_eq_some] at h
      obtain ⟨⟨d, r5⟩, h3, h⟩ := h
      split at h
      · split at h
        · exact rfc3339Time_wf _ _ _ _ _ h
        · cases h
      · cases h
    · cases h
  · cases h

theorem rfc2822Fin_wf (wd : Option Nat) (y : Int) (mo d hh mi se : Nat) (r : List Char)
    (t : Timestamp) (h : rfc2822Fin wd y mo d hh mi se r = some t) : Wf t := by
  unfold rfc2822Fin at h
  simp only [obind_eq_some, Option.bind_eq_some] at h
  obtain ⟨⟨off, r2⟩, hoff, h⟩ := h
  split at h
  · rename_i hcond
    cases h
    obtain ⟨h1, h2, h3, h4, h5, h6, h7, h8, h9, h10, h11, h12, h13⟩ := hcond
    exact ⟨⟨h2, h3, h4, h5, h6, h7, h8, h9, h10,
      by show (0 : Nat) < 1000000000; decide⟩, h11,
      rfc2822Zone_mod60 (dropWs r) off r2 hoff, h13⟩
  · cases h

theorem rfc2822AfterWday_wf (wd : Option Nat) (s : List Char) (t : Timestamp)
    (h : rfc2822AfterWday wd s = some t) : Wf t := by
  unfold rfc2822AfterWday at h
  simp only [obind_eq_some, Option.bind_eq_some] at h
  obtain ⟨⟨d, r1⟩, h1, h⟩ := h
  simp only [obind_eq_some, Option.bind_eq_some] at h
  obtain ⟨⟨moIdx, r2⟩, h2, h⟩ := h
  split at h
  · cases h
  · simp only [obind_eq_some, Option.bind_eq_some] at h
    obtain ⟨⟨hh, r4⟩, h3, h⟩ := h
    split at h
    · simp only [obind_eq_some, Option.bind_eq_some] at h
      obtain ⟨⟨mi, r6⟩, h4, h⟩ := h
      split at h
      · simp only [obind_eq_some, Option.bind_eq_some] at h
        obtain ⟨⟨se, r8⟩, h5, h⟩ := h
        exact rfc2822Fin_wf _ _ _ _ _ _ _ _ _ h
      · exact rfc2822Fin_wf _ _ _ _ _ _ _ _ _ h
    · cases h

theorem rfc2822Parse_wf (s : List Char) (t : Timestamp) (h : rfc2822Parse s = some t) : Wf t := by
  unfold rfc2822Parse at h
  split at h
  · split at h
    · exact rfc2822AfterWday_wf _ _ _ h
    · cases h
  · exact rfc2822AfterWday_wf _ _ _ h

theorem parseNaiveDT_valid (fmt s : List Char) (c : CivilDT) (h : parseNaiveDT fmt s = some c) :
    ValidCivil c := by
  unfold parseNaiveDT at h
  simp only [obind_eq_some, Option.bind_eq_some] at h
  obtain ⟨p, hp, hc⟩ := h
  exact resolveDT_valid p c hc

theorem parseNaiveDate_bounds (fmt s : List Char) (y : Int) (m d : Nat)
    (h : parseNaiveDate fmt s = some (y, m, d)) :
    -262144 ≤ y ∧ y ≤ 262143 ∧ 1 ≤ m ∧ m ≤ 12 ∧ 1 ≤ d ∧ d ≤ monthLen (isLeap y) m := by
  unfold parseNaiveDate at h
  simp only [obind_eq_some, Option.bind_eq_some] at h
  obtain ⟨p, hp, hc⟩ := h
  exact resolveDate_some p y m d hc

theorem parseNaiveTime_bounds (fmt s : List Char) (hh mi se ns : Nat)
    (h : parseNaiveTime fmt s = some (hh, mi, se, ns)) :
    hh < 24 ∧ mi < 60 ∧ se < 60 ∧ ns < 1000000000 := by
  unfold parseNaiveTime at h
  simp only [obind_eq_some, Option.bind_eq_some] at h
  obtain ⟨p, hp, hc⟩ := h
  exact resolveTime_some p hh mi se ns hc

theorem tryFmtsNaive_valid (s : List Char) (fs : List (List Char)) (c : CivilDT)
    (h : tryFmtsNaive s fs = some c) : ValidCivil c := by
  induction fs with
  | nil => cases h
  | cons f fs ih =>
    unfold tryFmtsNaive at h
    split at h
    · rename_i c' heq
      cases h
      exact parseNaiveDT_valid f s _ heq
    · exact ih h

theorem tryFmtsDT_wf (s : List Char) (fs : List (List Char)) (t : Timestamp)
    (h : tryFmtsDT s fs = some t) : Wf t := by
  induction fs with
  | nil => cases h
  | cons f fs ih =>
    unfold tryFmtsDT at h
    split at h
    · rename_i t' heq
      cases h
      exact parseDTFixed_wf f s _ heq
    · exact ih h

theorem tryFmtsDate_bounds (s : List Char) (fs : List (List Char)) (y : Int) (m d : Nat)
    (h : tryFmtsDate s fs = some (y, m, d)) :
    -262144 ≤ y ∧ y ≤ 262143 ∧ 1 ≤ m ∧ m ≤ 12 ∧ 1 ≤ d ∧ d ≤ monthLen (isLeap y) m := by
  induction fs with
  | nil => cases h
  | cons f fs ih =>
    unfold tryFmtsDate at h
    split at h
    · rename_i d' heq
      cases h
      exact parseNaiveDate_bounds f s _ _ _ heq
    · exact ih h

theorem tryFmtsTime_bounds (s : List Char) (fs : List (List Char)) (hh mi se ns : Nat)
    (h : tryFmtsTime s fs = some (hh, mi, se, ns)) :
    hh < 24 ∧ mi < 60 ∧ se < 60 ∧ ns < 1000000000 := by
  induction fs with
  | nil => cases h
  | cons f fs ih =>
    unfold tryFmtsTime at h
    split at h
    · rename_i t' heq
      cases h
      exact parseNaiveTime_bounds f s _ _ _ _ heq
    · exact ih h

theorem to_rfc2822_wf (s tz : List Char) (t : Timestamp) (h : to_rfc2822 s tz = .ok t) : Wf t := by
  unfold to_rfc2822 at h
  split at h
  · split at h
    · rename_i t' heq
      cases h
      exact rfc2822Parse_wf _ _ heq
    · cases h
  · cases h

theorem validCivil_date (y : Int) (m d : Nat)
    (hb : -262144 ≤ y ∧ y ≤ 262143 ∧ 1 ≤ m ∧ m ≤ 12 ∧ 1 ≤ d ∧ d ≤ monthLen (isLeap y) m) :
    ValidCivil ⟨y, m, d, 0, 0, 0, 0⟩ :=
  ⟨hb.1, hb.2.1, hb.2.2.1, hb.2.2.2.1, hb.2.2.2.2.1, hb.2.2.2.2.2,
   by show (0 : Nat) < 24; decide, by show (0 : Nat) < 60; decide,
   by show (0 : Nat) < 60; decide, by show (0 : Nat) < 1000000000; decide⟩

theorem from_unix_timestamp_wf (s : List Char) (t : Timestamp)
    (h : from_unix_timestamp s = .ok t) : Wf t := by
  unfold from_unix_timestamp at h
  split at h
  · unfold classifyTts at h
    split_ifs at h <;> exact mkUtc_wf _ _ _ h
  · cases h

theorem from_iso_plus_wf (s : List Char) (t : Timestamp) (h : from_iso_plus s = .ok t) :
    Wf t := by
  unfold from_iso_plus at h
  split at h
  · rename_i t' heq
    cases h
    exact rfc3339Parse_wf _ _ heq
  · cases h

theorem from_datetime_with_tz_wf (s : List Char) (t : Timestamp)
    (h : from_datetime_with_tz s = .ok t) : Wf t := by
  unfold from_datetime_with_tz at h
  split at h
  · rename_i t' heq
    cases h
    exact rfc3339Parse_wf _ _ heq
  · split at h
    · rename_i t' heq
      cases h
      exact rfc2822Parse_wf _ _ heq
    · split at h
      · rename_i t' heq
        cases h
        exact tryFmtsDT_wf _ _ _ heq
      · cases h

theorem from_datetime_without_tz_wf (env : Env) (s : List Char) (t : Timestamp)
    (henv : EnvWf env) (h : from_datetime_without_tz env s = .ok t) : Wf t := by
  unfold from_datetime_without_tz at h
  split at h
  · rename_i c heq
    exact attachLocal_wf env c t henv (tryFmtsNaive_valid _ _ _ heq) h
  · cases h

theorem from_date_without_tz_wf (env : Env) (s : List Char) (t : Timestamp)
    (henv : EnvWf env) (h : from_date_without_tz env s = .ok t) : Wf t := by
  unfold from_date_without_tz at h
  split at h
  · rename_i y m d heq
    exact attachLocal_wf env _ t henv (validCivil_date y m d (tryFmtsDate_bounds _ _ _ _ _ heq)) h
  · cases h

theorem from_time_without_tz_wf (env : Env) (s : List Char) (t : Timestamp)
    (henv : EnvWf env) (h : from_time_without_tz env s = .ok t) : Wf t := by
  unfold from_time_without_tz at h
  split at h
  · rename_i hh mi se ns heq
    have hb := tryFmtsTime_bounds _ _ _ _ _ _ heq
    obtain ⟨n1, n2, n3, n4, n5, n6, n7, n8, n9, n10⟩ := henv.2
    refine attachLocal_wf env _ t henv ?_ h
    exact ⟨n1, n2, n3, n4, n5, n6, hb.1, hb.2.1, hb.2.2.1, hb.2.2.2⟩
  · cases h

theorem from_time_with_tz_wf (env : Env) (s : List Char) (t : Timestamp)
    (h : from_time_with_tz env s = .ok t) : Wf t := by
  unfold from_time_with_tz at h
  split at h
  · exact to_rfc2822_wf _ _ _ h
  · cases h

theorem before_year_wf (s : List Char) (t : Timestamp)
    (h : from_datetime_with_tz_before_year s = .ok t) : Wf t := by
  unfold from_datetime_with_tz_before_year at h
  split at h
  · cases h
  · exact to_rfc2822_wf _ _ _ h

theorem try_yms_wf (s : List Char) (t : Timestamp) (h : try_yms_hms_tz s = .ok t) : Wf t := by
  unfold try_yms_hms_tz at h
  split at h
  · exact to_rfc2822_wf _ _ _ h
  · cases h

theorem try_dmmmy_wf (s : List Char) (t : Timestamp) (h : try_dmmmy_hms_tz s = .ok t) : Wf t := by
  unfold try_dmmmy_hms_tz at h
  split at h
  · exact to_rfc2822_wf _ _ _ h
  · cases h

theorem try_mmmddyyyy_wf (s : List Char) (t : Timestamp) (h : try_mmmddyyyy_hms_tz s = .ok t) :
    Wf t := by
  unfold try_mmmddyyyy_hms_tz at h
  split at h
  · cases h
  · split at h
    · cases h
    · split at h
      · rename_i t' heq
        cases h
        exact tryFmtsDT_wf _ _ _ heq
      · cases h

theorem try_others_wf (env : Env) (s : List Char) (t : Timestamp)
    (henv : EnvWf env) (h : try_others env s = .ok t) : Wf t := by
  unfold try_others at h
  split_ifs at h
  · split at h
    · rename_i y m d heq
      exact attachLocal_wf env _ t henv
        (validCivil_date y m d (parseNaiveDate_bounds _ _ _ _ _ heq)) h
    · cases h
  · split at h
    · rename_i y m d heq
      exact attachLocal_wf env _ t henv
        (validCivil_date y m d (parseNaiveDate_bounds _ _ _ _ _ heq)) h
    · cases h
  · split at h
    · rename_i c heq
      exact attachLocal_wf env c t henv (tryFmtsNaive_valid _ _ _ heq) h
    · cases h
  · split at h
    · rename_i c heq
      exact attachLocal_wf env c t henv (tryFmtsNaive_valid _ _ _ heq) h
    · cases h
  · split at h
    · rename_i c heq
      exact attachLocal_wf env c t henv (parseNaiveDT_valid _ _ _ heq) h
    · cases h
  · split at h
    · rename_i c heq
      exact attachLocal_wf env c t henv (parseNaiveDT_valid _ _ _ heq) h
    · cases h

theorem applyStrat_wf (env : Env) (tg : StratTag) (s : List Char) (t : Timestamp)
    (henv : EnvWf env) (h : applyStrat env tg s = .ok t) : Wf t := by
  revert h
  cases tg <;> intro h
  case unixTs => exact from_unix_timestamp_wf s t h
  case isoPlus => exact from_iso_plus_wf s t h
  case dtWithTz => exact from_datetime_with_tz_wf s t h
  case dtWithoutTz => exact from_datetime_without_tz_wf env s t henv h
  case dateOnly => exact from_date_without_tz_wf env s t henv h
  case timeOnly => exact from_time_without_tz_wf env s t henv h
  case timeWithTz => exact from_time_with_tz_wf env s t h
  case yms => exact try_yms_wf s t h
  case dmmmy => exact try_dmmmy_wf s t h
  case mmmddyyyy => exact try_mmmddyyyy_wf s t h
  case beforeYear => exact before_year_wf s t h
  case others => exact try_others_wf env s t henv h

theorem runChain_wf (env : Env) (tags : List StratTag) (s : List Char) (t : Timestamp)
    (henv : EnvWf env) (h : runChain env tags s = .ok t) : Wf t := by
  induction tags with
  | nil => cases h
  | cons tg tgs ih =>
    unfold runChain at h
    split at h
    · exact ih h
    · exact applyStrat_wf env tg s t henv h

theorem parse_from_wf (env : Env) (s : List Char) (t : Timestamp) (henv : EnvWf env)
    (h : parse_from env s = .ok t) : Wf t := by
  unfold parse_from at h
  split at h
  · cases h
  · split at h
    · cases h
    · split at h
      · cases h
      · cases h
      · rename_i t' heq
        cases h
        exact runChain_wf env chainOrder _ t henv heq


/-! ### Digit-string inversion lemmas -/

theorem digitsToNat_append_one (l : List Char) (c : Char) :
    digitsToNat (l ++ [c]) = digitsToNat l * 10 + digitVal c := by
  unfold digitsToNat
  rw [List.foldl_append]
  rfl

theorem digit_char_spec : ∀ r < 10, digitVal (Char.ofNat (48 + r)) = r ∧
    (Char.ofNat (48 + r)).isDigit = true := by decide

theorem natDigitsF_spec : ∀ (fuel n : Nat), n ≤ fuel →
    (∀ c ∈ natDigitsF fuel n, c.isDigit = true) ∧ digitsToNat (natDigitsF fuel n) = n := by
  intro fuel
  induction fuel with
  | zero =>
    intro n hn
    have h0 : n = 0 := by omega
    subst h0
    exact ⟨by intro c hc; simp [natDigitsF] at hc, rfl⟩
  | succ fuel ih =>
    intro n hn
    by_cases h0 : n = 0
    · subst h0
      exact ⟨by intro c hc; simp [natDigitsF] at hc, rfl⟩
    · have hrec := ih (n / 10) (by omega)
      have hd := digit_char_spec (n % 10) (by omega)
      constructor
      · intro c hc
        simp only [natDigitsF, if_neg h0] at hc
        rcases List.mem_append.mp hc with h | h
        · exact hrec.1 c h
        · simp only [List.mem_singleton] at h
          subst h
          exact hd.2
      · simp only [natDigitsF, if_neg h0]
        rw [digitsToNat_append_one, hrec.2, hd.1]
        omega

theorem natDigits_spec (n : Nat) :
    (∀ c ∈ natDigits n, c.isDigit = true) ∧ digitsToNat (natDigits n) = n ∧ natDigits n ≠ [] := by
  unfold natDigits
  split_ifs with h
  · subst h
    refine ⟨?_, rfl, by simp⟩
    intro c hc
    simp only [List.mem_singleton] at hc
    subst hc
    decide
  · have hs := natDigitsF_spec n n (le_refl n)
    refine ⟨hs.1, hs.2, ?_⟩
    cases n with
    | zero => exact absurd rfl h
    | succ m =>
      simp only [natDigitsF, if_neg h]
      simp

theorem digitsToNat_replicate_zero (k : Nat) (l : List Char) :
    digitsToNat (List.replicate k '0' ++ l) = digitsToNat l := by
  induction k with
  | zero => rfl
  | succ m ih =>
    rw [List.replicate_succ, List.cons_append]
    unfold digitsToNat at ih ⊢
    simp only [List.foldl_cons]
    exact ih

theorem padNat_spec (w n : Nat) :
    (∀ c ∈ padNat w n, c.isDigit = true) ∧ digitsToNat (padNat w n) = n := by
  unfold padNat
  constructor
  · intro c hc
    rcases List.mem_append.mp hc with h | h
    · rw [List.eq_of_mem_replicate h]; decide
    · exact (natDigits_spec n).1 c h
  · rw [digitsToNat_replicate_zero]
    exact (natDigits_spec n).2.1

theorem natDigitsF_len : ∀ (fuel n k : Nat), n ≤ fuel → n < pow10N k →
    (natDigitsF fuel n).length ≤ k := by
  intro fuel
  induction fuel with
  | zero =>
    intro n k hn _
    have h0 : n = 0 := by omega
    subst h0
    simp [natDigitsF]
  | succ fuel ih =>
    intro n k hn hk
    by_cases h0 : n = 0
    · subst h0; simp [natDigitsF]
    · cases k with
      | zero =>
        simp only [pow10N] at hk
        omega
      | succ k' =>
        simp only [natDigitsF, if_neg h0, List.length_append, List.length_cons,
          List.length_nil]
        simp only [pow10N] at hk
        have hdiv : n / 10 < pow10N k' := by omega
        have := ih (n / 10) k' (by omega) hdiv
        omega

theorem padNat_len (w n : Nat) (h1 : 1 ≤ w) (h2 : n < pow10N w) : (padNat w n).length = w := by
  unfold padNat
  rw [List.length_append, List.length_replicate]
  have hle : (natDigits n).length ≤ w := by
    unfold natDigits
    split_ifs with h0
    · simpa using h1
    · exact natDigitsF_len n n w (le_refl n) h2
  omega

theorem padNat2_cons (k : Nat) (hk : k < 100) :
    ∃ a b, padNat 2 k = [a, b] ∧ a.isDigit = true ∧ b.isDigit = true ∧
      digitVal a * 10 + digitVal b = k := by
  have hlen : (padNat 2 k).length = 2 := by
    refine padNat_len 2 k (by omega) ?_
    simp only [pow10N]
    omega
  obtain ⟨a, b, hab⟩ := List.length_eq_two.mp hlen
  refine ⟨a, b, hab, ?_, ?_, ?_⟩
  · exact (padNat_spec 2 k).1 a (by rw [hab]; simp)
  · exact (padNat_spec 2 k).1 b (by rw [hab]; simp)
  · have hv := (padNat_spec 2 k).2
    rw [hab] at hv
    unfold digitsToNat at hv
    simp only [List.foldl_cons, List.foldl_nil] at hv
    omega

theorem read2_padNat (k : Nat) (hk : k < 100) (r : List Char) :
    read2 (padNat 2 k ++ r) = some (k, r) := by
  obtain ⟨a, b, hab, ha, hb, hv⟩ := padNat2_cons k hk
  rw [hab]
  show read2 (a :: b :: r) = some (k, r)
  simp [read2, ha, hb, hv]

theorem takeWhile_digits_append : ∀ (ds rest : List Char),
    (∀ c ∈ ds, c.isDigit = true) →
    (∀ c, rest.head? = some c → c.isDigit = false) →
    (ds ++ rest).takeWhile Char.isDigit = ds ∧ (ds ++ rest).dropWhile Char.isDigit = rest := by
  intro ds
  induction ds with
  | nil =>
    intro rest _ hr
    simp only [List.nil_append]
    cases rest with
    | nil => exact ⟨rfl, rfl⟩
    | cons c r =>
      have hc := hr c rfl
      constructor
      · simp [List.takeWhile_cons, hc]
      · simp [List.dropWhile_cons, hc]
  | cons d ds ih =>
    intro rest h hr
    have hd : d.isDigit = true := h d (by simp)
    have ih2 := ih rest (fun c hc => h c (by simp [hc])) hr
    constructor
    · simp [List.takeWhile_cons, hd, ih2.1]
    · simp [List.dropWhile_cons, hd, ih2.2]

theorem scanDigitsAux_run : ∀ (ds : List Char) (w : Nat) (rest : List Char) (acc cnt : Nat),
    (∀ c ∈ ds, c.isDigit = true) →
    (∀ c, rest.head? = some c → c.isDigit = false) →
    ds.length ≤ w →
    scanDigitsAux w (ds ++ rest) acc cnt =
      (List.foldl (fun a c => a * 10 + digitVal c) acc ds, cnt + ds.length, rest) := by
  intro ds
  induction ds with
  | nil =>
    intro w rest acc cnt _ hr _
    simp only [List.nil_append, List.foldl_nil, List.length_nil, Nat.add_zero]
    cases w with
    | zero => rfl
    | succ w' =>
      cases rest with
      | nil => rfl
      | cons c r =>
        have hc := hr c rfl
        simp [scanDigitsAux, hc]
  | cons d ds ih =>
    intro w rest acc cnt h hr hlen
    cases w with
    | zero => simp at hlen
    | succ w' =>
      have hd : d.isDigit = true := h d (by simp)
      simp only [List.cons_append, scanDigitsAux, hd, if_true, List.append_eq]
      rw [ih w' rest (acc * 10 + digitVal d) (cnt + 1)
        (fun c hc => h c (by simp [hc])) hr (by simpa using hlen)]
      simp only [List.foldl_cons, List.length_cons]
      have harith : cnt + 1 + ds.length = cnt + (ds.length + 1) := by omega
      rw [harith]

theorem scanUNum_run (w : Nat) (ds rest : List Char)
    (h : ∀ c ∈ ds, c.isDigit = true) (hne : ds ≠ [])
    (hr : ∀ c, rest.head? = some c → c.isDigit = false) (hlen : ds.length ≤ w) :
    scanUNum w (ds ++ rest) = some (digitsToNat ds, rest) := by
  unfold scanUNum
  rw [scanDigitsAux_run ds w rest 0 0 h hr hlen]
  have hne2 : ds.length ≠ 0 := by
    cases ds with
    | nil => exact absurd rfl hne
    | cons a l => simp
  simp [hne2, digitsToNat]


/-! ### RFC 3339 serialization inverts back through the RFC 3339 parser -/

theorem obind_some {α β : Type} (a : α) (f : α → Option β) : (some a >>= f) = f a := rfl

theorem padNat_ne_nil (w n : Nat) : padNat w n ≠ [] := by
  unfold padNat
  intro h
  rcases List.append_eq_nil.mp h with ⟨_, h2⟩
  exact (natDigits_spec n).2.2 h2

theorem offStr_head (off : Int) : ∃ R, offStr off = '+' :: R ∨ offStr off = '-' :: R := by
  unfold offStr
  split_ifs
  · exact ⟨_, Or.inr rfl⟩
  · exact ⟨_, Or.inl rfl⟩

theorem scanOff3339_offStr (off : Int) (h60 : off % 60 = 0) (hA : off.natAbs ≤ 86399) :
    scanOff3339 (offStr off) = some (off, []) := by
  have hH : off.natAbs / 3600 < 100 := by omega
  have hM : off.natAbs % 3600 / 60 < 60 := by omega
  obtain ⟨a, b, hab, ha, hb, hva⟩ := padNat2_cons _ hH
  obtain ⟨m1, m2, hm12, hm1, hm2, hvm⟩ := padNat2_cons _ (by omega : off.natAbs % 3600 / 60 < 100)
  have hlt : digitVal m1 * 10 + digitVal m2 < 60 := by omega
  unfold offStr
  rw [hab, hm12]
  by_cases hneg : off < 0
  · rw [if_pos hneg]
    have hofv : offVal true (digitVal a * 10 + digitVal b) (digitVal m1 * 10 + digitVal m2) =
        off := by
      unfold offVal
      split_ifs
      all_goals first | omega | simp_all
    show scanOff3339 ('-' :: a :: b :: ':' :: m1 :: m2 :: []) = some (off, [])
    simp [scanOff3339, read2, ha, hb, hm1, hm2, hlt, hofv]
  · rw [if_neg hneg]
    have hofv : offVal false (digitVal a * 10 + digitVal b) (digitVal m1 * 10 + digitVal m2) =
        off := by
      unfold offVal
      split_ifs
      all_goals first | omega | simp_all
    show scanOff3339 ('+' :: a :: b :: ':' :: m1 :: m2 :: []) = some (off, [])
    simp [scanOff3339, read2, ha, hb, hm1, hm2, hlt, hofv]

theorem scanFrac_digits (ds rest : List Char) (hne : ds ≠ [])
    (h : ∀ c ∈ ds, c.isDigit = true) (hlen : ds.length ≤ 9)
    (hr : ∀ c, rest.head? = some c → c.isDigit = false) :
    scanFrac (ds ++ rest) = some (digitsToNat ds * pow10N (9 - ds.length), rest) := by
  obtain ⟨ht, hd⟩ := takeWhile_digits_append ds rest h hr
  unfold scanFrac
  rw [ht, hd, if_neg hne, List.take_of_length_le hlen]

theorem padNat4_cons (k : Nat) (hk : k < 10000) :
    ∃ a b c d, padNat 4 k = [a, b, c, d] ∧ a.isDigit = true ∧ b.isDigit = true ∧
      c.isDigit = true ∧ d.isDigit = true ∧ digitsToNat [a, b, c, d] = k := by
  have hlen : (padNat 4 k).length = 4 := by
    refine padNat_len 4 k (by omega) ?_
    simp only [pow10N]
    omega
  rcases hL : padNat 4 k with _ | ⟨a, _ | ⟨b, _ | ⟨c, _ | ⟨d, rest⟩⟩⟩⟩ <;>
    rw [hL] at hlen <;> simp at hlen
  subst hlen
  have hsp := padNat_spec 4 k
  rw [hL] at hsp
  refine ⟨a, b, c, d, rfl, ?_, ?_, ?_, ?_, hsp.2⟩
  · exact hsp.1 a (by simp)
  · exact hsp.1 b (by simp)
  · exact hsp.1 c (by simp)
  · exact hsp.1 d (by simp)

theorem scanYear3339_yearStr (y : Int) (h1 : -262144 ≤ y) (h2 : y ≤ 262143) (R : List Char) :
    scanYear3339 (yearStr3339 y ++ '-' :: R) = some (y, '-' :: R) := by
  unfold yearStr3339
  split_ifs with ha hb
  · obtain ⟨a, b, c, d, hL, hda, hdb, hdc, hdd, hv⟩ := padNat4_cons y.toNat (by omega)
    rw [hL]
    have hnpa := isDigit_ne_sign hda
    have hcast : ((y.toNat : Int)) = y := by omega
    show scanYear3339 (a :: b :: c :: d :: '-' :: R) = some (y, '-' :: R)
    simp [scanYear3339, hnpa.1, hnpa.2, hda, hdb, hdc, hdd, hv, hcast]
  · show scanYear3339 ('-' :: (padNat 4 (-y).toNat ++ '-' :: R)) = some (y, '-' :: R)
    have hrun := scanUNum_run (padNat 4 (-y).toNat ++ '-' :: R).length
      (padNat 4 (-y).toNat) ('-' :: R) (padNat_spec _ _).1 (padNat_ne_nil _ _)
      (by intro c hc; cases hc; decide) (by simp)
    simp only [List.length_append, List.length_cons] at hrun
    simp [scanYear3339]
    exact ⟨digitsToNat (padNat 4 (-y).toNat), hrun,
      by rw [(padNat_spec 4 (-y).toNat).2]; omega⟩
  · show scanYear3339 ('+' :: (padNat 4 y.toNat ++ '-' :: R)) = some (y, '-' :: R)
    have hrun := scanUNum_run (padNat 4 y.toNat ++ '-' :: R).length
      (padNat 4 y.toNat) ('-' :: R) (padNat_spec _ _).1 (padNat_ne_nil _ _)
      (by intro c hc; cases hc; decide) (by simp)
    simp only [List.length_append, List.length_cons] at hrun
    simp [scanYear3339]
    exact ⟨digitsToNat (padNat 4 y.toNat), hrun,
      by rw [(padNat_spec 4 y.toNat).2]; omega⟩

theorem rfc3339Fin_offStr (y : Int) (mo d hh mi se ns : Nat) (off : Int)
    (hy1 : -262144 ≤ y) (hy2 : y ≤ 262143) (hmo1 : 1 ≤ mo) (hmo2 : mo ≤ 12) (hd1 : 1 ≤ d)
    (hd2 : d ≤ monthLen (isLeap y) mo) (hhh : hh < 24) (hmi : mi < 60) (hse : se < 60)
    (hns : ns < 1000000000) (hoffA : off.natAbs ≤ 86399) (h60 : off % 60 = 0)
    (hrange : utcRangeOk (secsOfCivil ⟨y, mo, d, hh, mi, se, ns⟩ - off) = true) :
    rfc3339Fin y mo d hh mi se ns (offStr off) = some ⟨⟨y, mo, d, hh, mi, se, ns⟩, off⟩ := by
  unfold rfc3339Fin
  rw [scanOff3339_offStr off h60 hoffA, obind_some]
  exact if_pos ⟨rfl, hy1, hy2, hmo1, hmo2, hd1, hd2, hhh, hmi, hse, hns, hoffA, hrange⟩


theorem monthLen_le31 (b : Bool) (m : Nat) : monthLen b m ≤ 31 := by
  by_cases h : m < 13
  · interval_cases m <;> cases b <;> decide
  · have h1 : ¬ m = 1 := by omega
    have h2 : ¬ m = 2 := by omega
    have h3 : ¬ m = 3 := by omega
    have h4 : ¬ m = 4 := by omega
    have h5 : ¬ m = 5 := by omega
    have h6 : ¬ m = 6 := by omega
    have h7 : ¬ m = 7 := by omega
    have h8 : ¬ m = 8 := by omega
    have h9 : ¬ m = 9 := by omega
    have h10 : ¬ m = 10 := by omega
    have h11 : ¬ m = 11 := by omega
    have h12 : ¬ m = 12 := by omega
    simp [monthLen, h1, h2, h3, h4, h5, h6, h7, h8, h9, h10, h11, h12]

theorem rfc3339Time_inv (y : Int) (mo d hh mi se ns : Nat) (off : Int) (T : Timestamp)
    (hh2 : hh < 100) (hmi2 : mi < 100) (hse2 : se < 100) (hns : ns < 1000000000)
    (hfin : rfc3339Fin y mo d hh mi se ns (offStr off) = some T) :
    rfc3339Time y mo d
      (padNat 2 hh ++ ':' :: (padNat 2 mi ++ ':' :: (padNat 2 se ++ (fracStr ns ++ offStr off))))
      = some T := by
  unfold rfc3339Time
  simp only [read2_padNat hh hh2, read2_padNat mi hmi2, read2_padNat se hse2, obind_some]
  by_cases h0 : ns = 0
  · subst h0
    rw [show fracStr 0 = [] from rfl, List.nil_append]
    rcases offStr_head off with ⟨R, hR | hR⟩
    · rw [hR]
      show rfc3339Fin y mo d hh mi se 0 ('+' :: R) = some T
      rw [← hR]
      exact hfin
    · rw [hR]
      show rfc3339Fin y mo d hh mi se 0 ('-' :: R) = some T
      rw [← hR]
      exact hfin
  · have hrd : ∀ c, (offStr off).head? = some c → c.isDigit = false := by
      rcases offStr_head off with ⟨R, hR | hR⟩ <;> rw [hR] <;> intro c hc <;> cases hc <;> decide
    unfold fracStr
    rw [if_neg h0]
    split_ifs with hq1 hq2
    · have hlen3 : (padNat 3 (ns / 1000000)).length = 3 := by
        refine padNat_len 3 _ (by omega) ?_
        simp only [pow10N]
        omega
      have hsf := scanFrac_digits (padNat 3 (ns / 1000000)) (offStr off) (padNat_ne_nil _ _)
        (padNat_spec _ _).1 (by rw [hlen3]; omega) hrd
      have hval : digitsToNat (padNat 3 (ns / 1000000)) *
          pow10N (9 - (padNat 3 (ns / 1000000)).length) = ns := by
        rw [(padNat_spec _ _).2, hlen3]
        show ns / 1000000 * pow10N 6 = ns
        rw [show pow10N 6 = 1000000 from rfl]
        omega
      rw [hval] at hsf
      rw [List.cons_append]
      simp only [hsf, obind_some]
      exact hfin
    · have hlen6 : (padNat 6 (ns / 1000)).length = 6 := by
        refine padNat_len 6 _ (by omega) ?_
        simp only [pow10N]
        omega
      have hsf := scanFrac_digits (padNat 6 (ns / 1000)) (offStr off) (padNat_ne_nil _ _)
        (padNat_spec _ _).1 (by rw [hlen6]; omega) hrd
      have hval : digitsToNat (padNat 6 (ns / 1000)) *
          pow10N (9 - (padNat 6 (ns / 1000)).length) = ns := by
        rw [(padNat_spec _ _).2, hlen6]
        show ns / 1000 * pow10N 3 = ns
        rw [show pow10N 3 = 1000 from rfl]
        omega
      rw [hval] at hsf
      rw [List.cons_append]
      simp only [hsf, obind_some]
      exact hfin
    · have hlen9 : (padNat 9 ns).length = 9 := by
        refine padNat_len 9 _ (by omega) ?_
        simp only [pow10N]
        omega
      have hsf := scanFrac_digits (padNat 9 ns) (offStr off) (padNat_ne_nil _ _)
        (padNat_spec _ _).1 (by rw [hlen9]) hrd
      have hval : digitsToNat (padNat 9 ns) * pow10N (9 - (padNat 9 ns).length) = ns := by
        rw [(padNat_spec _ _).2, hlen9]
        show ns * pow10N 0 = ns
        rw [show pow10N 0 = 1 from rfl]
        omega
      rw [hval] at hsf
      rw [List.cons_append]
      simp only [hsf, obind_some]
      exact hfin

theorem rfc3339Parse_toRfc3339 (t : Timestamp) (h : Wf t) :
    rfc3339Parse (toRfc3339 t) = some t := by
  obtain ⟨⟨y, mo, d, hh, mi, se, ns⟩, off⟩ := t
  obtain ⟨⟨hy1, hy2, hmo1, hmo2, hd1, hd2, hhh, hmi, hse, hns⟩, hoffA, hoff60, hrange⟩ := h
  dsimp only at hy1 hy2 hmo1 hmo2 hd1 hd2 hhh hmi hse hns hoffA hoff60 hrange
  unfold toRfc3339
  simp only [List.append_assoc, List.cons_append, List.nil_append]
  unfold rfc3339Parse
  rw [scanYear3339_yearStr y hy1 hy2, obind_some]
  have hml := monthLen_le31 (isLeap y) mo
  simp only [read2_padNat mo (by omega : mo < 100), read2_padNat d (by omega : d < 100),
    obind_some]
  show rfc3339Time y mo d
      (padNat 2 hh ++ ':' :: (padNat 2 mi ++ ':' :: (padNat 2 se ++ (fracStr ns ++ offStr off))))
      = some ⟨⟨y, mo, d, hh, mi, se, ns⟩, off⟩
  exact rfc3339Time_inv y mo d hh mi se ns off _ (by omega) (by omega) (by omega) hns
    (rfc3339Fin_offStr y mo d hh mi se ns off hy1 hy2 hmo1 hmo2 hd1 hd2 hhh hmi hse hns
      hoffA hoff60 hrange)


/-! ### The serialized string is rejected by the numeric-timestamp strategy -/

theorem isDigit_utf8Size (c : Char) (h : c.isDigit = true) : c.utf8Size = 1 := by
  simp [Char.isDigit] at h
  unfold Char.utf8Size
  rw [if_pos]
  show c.val ≤ 127
  exact UInt32.le_trans h.2 (by decide)

theorem toRfc3339_shape (t : Timestamp) :
    ∃ sgn ds R, (sgn = ([] : List Char) ∨ sgn = ['+'] ∨ sgn = ['-']) ∧ ds ≠ [] ∧
      (∀ c ∈ ds, c.isDigit = true) ∧ toRfc3339 t = sgn ++ ds ++ '-' :: R := by
  unfold toRfc3339 yearStr3339
  simp only [List.append_assoc, List.cons_append, List.nil_append]
  split_ifs with ha hb
  · exact ⟨[], padNat 4 t.loc.year.toNat, _, Or.inl rfl, padNat_ne_nil _ _,
      (padNat_spec _ _).1, rfl⟩
  · exact ⟨['-'], padNat 4 (-t.loc.year).toNat, _, Or.inr (Or.inr rfl), padNat_ne_nil _ _,
      (padNat_spec _ _).1, rfl⟩
  · exact ⟨['+'], padNat 4 t.loc.year.toNat, _, Or.inr (Or.inl rfl), padNat_ne_nil _ _,
      (padNat_spec _ _).1, rfl⟩

theorem parseUDecCore_none (s : List Char) (c : Char) (hc : c ∈ s) (hnd : c.isDigit = false) :
    parseUDecCore s = none := by
  unfold parseUDecCore
  rw [if_neg]
  rintro ⟨h1, h2⟩
  have := List.all_eq_true.mp h2 c hc
  rw [hnd] at this
  cases this

theorem parseExpPart_dash (q : Q2) (R : List Char) : parseExpPart q ('-' :: R) = none := by
  unfold parseExpPart
  split
  · rename_i heq2
    cases heq2
  · rename_i c r heq2
    injection heq2 with h1 h2
    subst h1
    rw [if_neg]
    rintro (h | h) <;> exact absurd h (by decide)

theorem parseDecMant_none (ds R : List Char) (hne : ds ≠ [])
    (hdig : ∀ c ∈ ds, c.isDigit = true) :
    parseDecMant (ds ++ '-' :: R) = none := by
  obtain ⟨ht, hd⟩ := takeWhile_digits_append ds ('-' :: R) hdig
    (by intro c hc; cases hc; decide)
  unfold parseDecMant
  rw [hd]
  show (if (ds ++ '-' :: R).takeWhile Char.isDigit = [] then none
        else parseExpPart (Q2.ofInt (digitsToNat ((ds ++ '-' :: R).takeWhile Char.isDigit)))
          ('-' :: R)) = none
  rw [ht, if_neg hne]
  exact parseExpPart_dash _ _

theorem parseF64Body_none (neg : Bool) (ds R : List Char) (hne : ds ≠ [])
    (hdig : ∀ c ∈ ds, c.isDigit = true) :
    parseF64Body neg (ds ++ '-' :: R) = none := by
  have hmem : '-' ∈ (ds ++ '-' :: R).map toLowerCh :=
    List.mem_map.mpr ⟨'-', by simp, by decide⟩
  unfold parseF64Body
  rw [if_neg, if_neg]
  · rw [parseDecMant_none ds R hne hdig]
    rfl
  · intro hcon
    rw [hcon] at hmem
    exact absurd hmem (by decide)
  · rintro (hcon | hcon) <;> rw [hcon] at hmem <;> exact absurd hmem (by decide)

theorem ttsOf_toRfc3339 (t : Timestamp) : ttsOf (toRfc3339 t) = none := by
  obtain ⟨sgn, ds, R, hsgn, hne, hdig, heq⟩ := toRfc3339_shape t
  have hdash : parseUDecCore (ds ++ '-' :: R) = none :=
    parseUDecCore_none _ '-' (by simp) rfl
  obtain ⟨d0, ds', hds⟩ := List.exists_cons_of_ne_nil hne
  have hd0 : d0.isDigit = true := hdig d0 (by rw [hds]; simp)
  have hd0s := isDigit_ne_sign hd0
  have hdash0 : parseUDecCore (d0 :: (ds' ++ '-' :: R)) = none := by
    refine parseUDecCore_none _ '-' ?_ rfl
    simp
  have hF0 : parseF64Body false (ds ++ '-' :: R) = none :=
    parseF64Body_none false ds R hne hdig
  have hF1 : parseF64Body true (ds ++ '-' :: R) = none :=
    parseF64Body_none true ds R hne hdig
  have hI : parseI64 (toRfc3339 t) = none := by
    rw [heq]
    rcases hsgn with h | h | h <;> subst h
    · rw [hds, List.nil_append, List.cons_append, parseI64.eq_def]
      split
      · rfl
      · rename_i c r heq2
        injection heq2 with h1 h2
        subst h1
        subst h2
        rw [if_neg hd0s.1, if_neg hd0s.2, hdash0]
        rfl
    · show parseI64 ('+' :: (ds ++ '-' :: R)) = none
      rw [parseI64.eq_def]
      split
      · rfl
      · rename_i c r heq2
        injection heq2 with h1 h2
        subst h1
        subst h2
        rw [if_pos rfl, hdash]
        rfl
    · show parseI64 ('-' :: (ds ++ '-' :: R)) = none
      rw [parseI64.eq_def]
      split
      · rfl
      · rename_i c r heq2
        injection heq2 with h1 h2
        subst h1
        subst h2
        rw [if_neg (by decide), if_pos rfl, hdash]
        rfl
  have hF : parseF64 (toRfc3339 t) = none := by
    rw [heq]
    rcases hsgn with h | h | h <;> subst h
    · rw [List.nil_append]
      unfold parseF64
      split
      · rename_i r hr
        rw [hds] at hr
        cases hr
        exact absurd hd0 (by decide)
      · rename_i r hr
        rw [hds] at hr
        cases hr
        exact absurd hd0 (by decide)
      · exact hF0
    · show parseF64 ('+' :: (ds ++ '-' :: R)) = none
      rw [show parseF64 ('+' :: (ds ++ '-' :: R)) = parseF64Body false (ds ++ '-' :: R) from rfl]
      exact hF0
    · show parseF64 ('-' :: (ds ++ '-' :: R)) = none
      rw [show parseF64 ('-' :: (ds ++ '-' :: R)) = parseF64Body true (ds ++ '-' :: R) from rfl]
      exact hF1
  unfold ttsOf
  rw [hI, hF]
  rfl


/-! ### `standardize_date` leaves the serialized string unchanged -/

theorem yearStr3339_chars (y : Int) :
    ∀ c ∈ yearStr3339 y, (c.isDigit = true ∨ c = '-' ∨ c = '+') := by
  intro c hc
  unfold yearStr3339 at hc
  split_ifs at hc
  · exact Or.inl ((padNat_spec _ _).1 c hc)
  · rcases List.mem_cons.mp hc with h | h
    · exact Or.inr (Or.inl h)
    · exact Or.inl ((padNat_spec _ _).1 c h)
  · rcases List.mem_cons.mp hc with h | h
    · exact Or.inr (Or.inr h)
    · exact Or.inl ((padNat_spec _ _).1 c h)

theorem fracStr_chars (ns : Nat) :
    ∀ c ∈ fracStr ns, (c.isDigit = true ∨ c = '.') := by
  intro c hc
  unfold fracStr at hc
  split_ifs at hc
  · simp at hc
  all_goals
    rcases List.mem_cons.mp hc with h | h
    · exact Or.inr h
    · exact Or.inl ((padNat_spec _ _).1 c h)

theorem offStr_chars (off : Int) :
    ∀ c ∈ offStr off, (c.isDigit = true ∨ c = '-' ∨ c = '+' ∨ c = ':') := by
  intro c hc
  unfold offStr at hc
  rcases List.mem_cons.mp hc with h | h
  · split_ifs at h
    · exact Or.inr (Or.inl h)
    · exact Or.inr (Or.inr (Or.inl h))
  · simp only [List.append_assoc, List.mem_append, List.mem_cons, List.mem_singleton,
      List.not_mem_nil, or_false] at h
    rcases h with h | h | h
    · exact Or.inl ((padNat_spec _ _).1 c h)
    · exact Or.inr (Or.inr (Or.inr h))
    · exact Or.inl ((padNat_spec _ _).1 c h)

theorem toRfc3339_chars (t : Timestamp) :
    ∀ c ∈ toRfc3339 t,
      (c.isDigit = true ∨ c = '-' ∨ c = '+' ∨ c = 'T' ∨ c = ':' ∨ c = '.') := by
  intro c hc
  unfold toRfc3339 at hc
  simp only [List.append_assoc, List.cons_append, List.nil_append, List.mem_append,
    List.mem_cons] at hc
  rcases hc with h | h | h | h | h | h | h | h | h | h | h | h | h
  · rcases yearStr3339_chars t.loc.year c h with h2 | h2 | h2 <;> simp [h2]
  · subst h; decide
  · exact Or.inl ((padNat_spec _ _).1 c h)
  · subst h; decide
  · exact Or.inl ((padNat_spec _ _).1 c h)
  · subst h; decide
  · exact Or.inl ((padNat_spec _ _).1 c h)
  · subst h; decide
  · exact Or.inl ((padNat_spec _ _).1 c h)
  · subst h; decide
  · exact Or.inl ((padNat_spec _ _).1 c h)
  · rcases fracStr_chars t.loc.nanos c h with h2 | h2 <;> simp [h2]
  · rcases offStr_chars t.offSec c h with h2 | h2 | h2 | h2 <;> simp [h2]

theorem padNat4_len_ge (n : Nat) : 4 ≤ (padNat 4 n).length := by
  unfold padNat
  rw [List.length_append, List.length_replicate]
  omega

theorem yearStr_len_ge4 (y : Int) : 4 ≤ (yearStr3339 y).length := by
  unfold yearStr3339
  split_ifs
  · exact padNat4_len_ge _
  · simp only [List.length_cons]
    have := padNat4_len_ge (-y).toNat
    omega
  · simp only [List.length_cons]
    have := padNat4_len_ge y.toNat
    omega

theorem toRfc3339_len8 (t : Timestamp) : 8 ≤ (toRfc3339 t).length := by
  unfold toRfc3339
  simp only [List.append_assoc, List.cons_append, List.nil_append, List.length_append,
    List.length_cons]
  have h1 := yearStr_len_ge4 t.loc.year
  have h2 := List.length_pos.mpr (padNat_ne_nil 2 t.loc.month)
  have h3 := List.length_pos.mpr (padNat_ne_nil 2 t.loc.day)
  omega

theorem toRfc3339_take8 (t : Timestamp) :
    ∀ c ∈ (toRfc3339 t).take 8, (c.isDigit = true ∨ c = '-' ∨ c = '+') := by
  have hA : toRfc3339 t =
      (yearStr3339 t.loc.year ++ '-' :: (padNat 2 t.loc.month ++ '-' :: padNat 2 t.loc.day)) ++
        ('T' :: (padNat 2 t.loc.hour ++ ':' :: (padNat 2 t.loc.minute ++ ':' ::
          (padNat 2 t.loc.second ++ (fracStr t.loc.nanos ++ offStr t.offSec))))) := by
    unfold toRfc3339
    simp only [List.append_assoc, List.cons_append, List.nil_append]
  have hy4 := yearStr_len_ge4 t.loc.year
  have hp2 := List.length_pos.mpr (padNat_ne_nil 2 t.loc.month)
  have hp3 := List.length_pos.mpr (padNat_ne_nil 2 t.loc.day)
  have hAlen : 8 ≤ (yearStr3339 t.loc.year ++
      '-' :: (padNat 2 t.loc.month ++ '-' :: padNat 2 t.loc.day)).length := by
    simp only [List.length_append, List.length_cons]
    omega
  intro c hc
  rw [hA, List.take_append_eq_append_take,
    show 8 - (yearStr3339 t.loc.year ++
      '-' :: (padNat 2 t.loc.month ++ '-' :: padNat 2 t.loc.day)).length = 0 from by omega,
    List.take_zero, List.append_nil] at hc
  have hc2 := List.take_subset 8 _ hc
  simp only [List.mem_append, List.mem_cons] at hc2
  rcases hc2 with h | h | h | h | h
  · rcases yearStr3339_chars _ c h with h2 | h2 | h2 <;> simp [h2]
  · simp [h]
  · exact Or.inl ((padNat_spec _ _).1 c h)
  · simp [h]
  · exact Or.inl ((padNat_spec _ _).1 c h)

theorem replaceAllF_nospace : ∀ (fuel : Nat) (ps rep s : List Char),
    (∀ c ∈ s, ¬ c = ' ') → replaceAllF fuel (' ' :: ps) rep s = s := by
  intro fuel
  induction fuel with
  | zero => intro ps rep s _; rfl
  | succ fuel ih =>
    intro ps rep s h
    cases s with
    | nil => rfl
    | cons c rest =>
      have hc : ¬ c = ' ' := h c (by simp)
      have hnp : ¬ (' ' :: ps).isPrefixOf (c :: rest) = true := by
        intro hpre
        simp only [List.isPrefixOf, Bool.and_eq_true, beq_iff_eq] at hpre
        exact hc hpre.1.symm
      unfold replaceAllF
      rw [if_neg hnp, ih ps rep rest (fun x hx => h x (by simp [hx]))]


theorem standardize_toRfc3339 (t : Timestamp) :
    standardize_date (toRfc3339 t) = some (toRfc3339 t) := by
  have hchars := toRfc3339_chars t
  have hlen8 := toRfc3339_len8 t
  have hascii : ∀ c ∈ (toRfc3339 t).take 8, c.utf8Size = 1 := by
    intro c hc
    rcases hchars c (List.take_subset 8 _ hc) with h | h | h | h | h | h
    · exact isDigit_utf8Size c h
    all_goals subst h
    all_goals decide
  have hnospace : ∀ c ∈ toRfc3339 t, ¬ c = ' ' := by
    intro c hc he
    subst he
    rcases hchars ' ' hc with h | h | h | h | h | h <;> exact absurd h (by decide)
  have hnocs : ∀ c ∈ toRfc3339 t, ¬ c = ',' ∧ ¬ c = ';' := by
    intro c hc
    constructor <;> intro he <;> subst he <;>
      rcases hchars _ hc with h | h | h | h | h | h <;> exact absurd h (by decide)
  have hmap : ((toRfc3339 t).take 8).map sepMap = (toRfc3339 t).take 8 := by
    have hid : ∀ a ∈ (toRfc3339 t).take 8, sepMap a = id a := by
      intro a ha
      rcases toRfc3339_take8 t a ha with h | h | h
      · show sepMap a = a
        unfold sepMap
        rw [if_neg]
        rintro (he | he) <;> subst he <;> exact absurd h (by decide)
      · subst h; decide
      · subst h; decide
    rw [List.map_congr_left hid, List.map_id]
  have hrepl : ∀ rep ps : List Char,
      replaceAll (' ' :: ps) rep (toRfc3339 t) = toRfc3339 t := by
    intro rep ps
    unfold replaceAll
    exact replaceAllF_nospace _ ps rep _ hnospace
  unfold standardize_date
  rw [if_neg (by have := length_le_utf8Len (toRfc3339 t); omega),
    dropBytesF_ascii 8 _ (by omega) hascii]
  show Option.map _
      (some (((toRfc3339 t).take 8).map sepMap ++ (toRfc3339 t).drop 8)) =
    some (toRfc3339 t)
  rw [hmap, List.take_append_drop]
  simp only [Option.map_some']
  rw [show (" UTC".toList : List Char) = ' ' :: "UTC".toList from rfl,
    show (" UT".toList : List Char) = ' ' :: "UT".toList from rfl,
    hrepl " GMT".toList "UTC".toList, hrepl " GMT".toList "UT".toList]
  congr 1
  exact List.filter_eq_self.mpr
    (fun a ha => by simp only [decide_eq_true_eq]; exact hnocs a ha)

theorem parse_from_toRfc3339 (env : Env) (t : Timestamp) (h : Wf t) :
    parse_from env (toRfc3339 t) = .ok t := by
  have hne : toRfc3339 t ≠ [] := by
    have h8 := toRfc3339_len8 t
    intro he
    rw [he] at h8
    simp at h8
  have h1 : applyStrat env .unixTs (toRfc3339 t) = .fail := by
    show from_unix_timestamp (toRfc3339 t) = .fail
    unfold from_unix_timestamp
    rw [ttsOf_toRfc3339]
  have h2 : applyStrat env .isoPlus (toRfc3339 t) = .ok t := by
    show from_iso_plus (toRfc3339 t) = .ok t
    unfold from_iso_plus
    rw [rfc3339Parse_toRfc3339 t h]
  have hrc : runChain env chainOrder (toRfc3339 t) = .ok t := by
    unfold chainOrder
    unfold runChain
    rw [h1]
    show runChain env [.isoPlus, .dtWithTz, .dtWithoutTz, .dateOnly, .timeOnly, .timeWithTz,
      .yms, .dmmmy, .mmmddyyyy, .beforeYear, .others] (toRfc3339 t) = .ok t
    unfold runChain
    rw [h2]
  unfold parse_from
  rw [if_neg hne, standardize_toRfc3339 t]
  show (match runChain env chainOrder (toRfc3339 t) with
        | SOut.panic => Outcome.panic
        | SOut.fail => Outcome.failure PFail.noStrategy
        | SOut.ok t2 => Outcome.ok t2) = Outcome.ok t
  rw [hrc]

theorem envTest_wf : EnvWf envTest := by
  constructor
  · intro c o hco
    have hco2 : LocalRes.single
        (if (c.month = 3 ∧ 26 ≤ c.day) ∨ (4 ≤ c.month ∧ c.month ≤ 9) ∨
            (c.month = 10 ∧ c.day ≤ 26) then (7200 : Int) else 3600) = .single o := hco
    injection hco2 with h2
    split_ifs at h2 <;> omega
  · show ValidCivil ⟨2024, 3, 15, 12, 0, 0, 0⟩
    unfold ValidCivil
    decide

/-- C6: when `parse_from` succeeds with timestamp `t` (in a well-behaved
platform environment: minute-granularity local offsets and a valid clock),
re-parsing the RFC 3339 serialization of `t` also succeeds, and the result
denotes the same absolute instant as `t` (indeed the same timestamp). -/
theorem C6_rfc3339_roundtrip (env : Env) (s : List Char) (t : Timestamp)
    (henv : EnvWf env) (h : parse_from env s = .ok t) :
    ∃ t2, parse_from env (toRfc3339 t) = .ok t2 ∧ instantNs t2 = instantNs t :=
  ⟨t, parse_from_toRfc3339 env t (parse_from_wf env s t henv h), rfl⟩

theorem C6_rfc3339_roundtrip_witness :
    ∃ t2, parse_from envTest (toRfc3339 ⟨⟨2023, 1, 5, 7, 27, 19, 0⟩, 0⟩) = .ok t2 ∧
      instantNs t2 = instantNs ⟨⟨2023, 1, 5, 7, 27, 19, 0⟩, 0⟩ :=
  C6_rfc3339_roundtrip envTest "1672903639".toList ⟨⟨2023, 1, 5, 7, 27, 19, 0⟩, 0⟩
    envTest_wf (by decide)

end DTP
